import Mathlib

/-!
Verification of the Bristlemouth sensor-messaging core (`ml_sensors.bristlemouth`):
the topic/message wire codec with its truncated-MD5 integrity check, the scalar
value codec, the fixed-layout sensor-reading encoding, sensor validation, and the
Spotter buoy client (bounded queue, simulated transmission, listeners).

Modelling conventions for the shallow embedding:
* Byte strings (`bytes`) are `List Nat`, each entry intended `< 256`; multi-byte
  integer fields are packed big-endian modulo `2^(8*width)` and theorems carry
  in-range hypotheses where the Python code would raise on overflow.
* Python `float` values (IEEE-754 binary64) are embedded as their sign/exponent/
  fraction fields (`F64`); `struct.pack('!f', x)` is the real round-to-nearest-even
  narrowing to binary32.  Exact rational semantics are given by `F64.sval`.
* Timestamps flow through arithmetic (`* 1000`, `/ 1000.0`) and are modelled as
  exact rationals.
* Fallible operations return `Except`/`Option`; the error type collapses each
  Python exception message to a structured constructor.
* Listener callbacks are opaque identifiers; an operation returns the list of
  (listener, arguments) invocations it performs, in invocation order.
-/

namespace MLS

/-! ## Byte-level primitives -/

/-- Big-endian bytes of `n` (mod `256^w`), `w` bytes wide (`struct.pack`, network
order). -/
def beBytes : Nat → Nat → List Nat
  | 0, _ => []
  | w + 1, n => beBytes w (n / 256) ++ [n % 256]

/-- Big-endian value of a byte string (`struct.unpack`, network order). -/
def beVal (l : List Nat) : Nat := l.foldl (fun a b => a * 256 + b) 0

theorem beBytes_length (w n : Nat) : (beBytes w n).length = w := by
  induction w generalizing n with
  | zero => rfl
  | succ w ih => simp [beBytes, ih]

theorem beVal_append_singleton (l : List Nat) (b : Nat) :
    beVal (l ++ [b]) = beVal l * 256 + b := by
  simp [beVal]

theorem beVal_beBytes (w n : Nat) : beVal (beBytes w n) = n % 256 ^ w := by
  induction w generalizing n with
  | zero => simp [beBytes, beVal, Nat.mod_one]
  | succ w ih =>
      rw [beBytes, beVal_append_singleton, ih]
      rw [Nat.pow_succ, Nat.mul_comm (256 ^ w) 256, Nat.mod_mul]
      omega

theorem beVal_beBytes_of_lt {w n : Nat} (h : n < 256 ^ w) :
    beVal (beBytes w n) = n := by
  rw [beVal_beBytes, Nat.mod_eq_of_lt h]

theorem beBytes_lt (w n : Nat) : ∀ b ∈ beBytes w n, b < 256 := by
  induction w generalizing n with
  | zero => simp [beBytes]
  | succ w ih =>
      intro b hb
      simp only [beBytes, List.mem_append, List.mem_singleton] at hb
      rcases hb with h | h
      · exact ih _ _ h
      · subst h; exact Nat.mod_lt _ (by norm_num)

/-! ## UTF-8 codec (Python `str.encode('utf-8')` / `bytes.decode('utf-8')`) -/

/-- UTF-8 encoding of a single Unicode scalar value. -/
def utf8EncodeCp (c : Nat) : List Nat :=
  if c < 0x80 then [c]
  else if c < 0x800 then [0xC0 + c / 64, 0x80 + c % 64]
  else if c < 0x10000 then [0xE0 + c / 4096, 0x80 + c / 64 % 64, 0x80 + c % 64]
  else [0xF0 + c / 262144, 0x80 + c / 4096 % 64, 0x80 + c / 64 % 64, 0x80 + c % 64]

/-- UTF-8 encoding of a character sequence. -/
def utf8EncodeChars : List Char → List Nat
  | [] => []
  | c :: cs => utf8EncodeCp c.toNat ++ utf8EncodeChars cs

/-- UTF-8 encoding of a Python string (`s.encode('utf-8')`). -/
def utf8Encode (s : String) : List Nat := utf8EncodeChars s.data

/-- Whether a byte is a UTF-8 continuation byte `10xxxxxx`. -/
def isCont (b : Nat) : Bool := 0x80 ≤ b && b < 0xC0

/-- One step of strict UTF-8 decoding: from a lead byte and the remaining bytes,
the decoded scalar value and the bytes left over.  Rejects overlong forms,
surrogates, values above `0x10FFFF`, stray continuation bytes, and truncated
sequences, as CPython's strict codec does. -/
def utf8Step (b : Nat) (rest : List Nat) : Option (Nat × List Nat) :=
  if b < 0x80 then some (b, rest)
  else if b < 0xC2 then none
  else if b < 0xE0 then
    match rest with
    | b1 :: rest1 =>
      if isCont b1 then some ((b - 0xC0) * 64 + (b1 - 0x80), rest1) else none
    | [] => none
  else if b < 0xF0 then
    match rest with
    | b1 :: b2 :: rest2 =>
      if (if b = 0xE0 then 0xA0 ≤ b1 && b1 < 0xC0
          else if b = 0xED then 0x80 ≤ b1 && b1 < 0xA0
          else isCont b1) && isCont b2 then
        some ((b - 0xE0) * 4096 + (b1 - 0x80) * 64 + (b2 - 0x80), rest2)
      else none
    | _ => none
  else if b < 0xF5 then
    match rest with
    | b1 :: b2 :: b3 :: rest3 =>
      if (if b = 0xF0 then 0x90 ≤ b1 && b1 < 0xC0
          else if b = 0xF4 then 0x80 ≤ b1 && b1 < 0x90
          else isCont b1) && isCont b2 && isCont b3 then
        some ((b - 0xF0) * 262144 + (b1 - 0x80) * 4096 + (b2 - 0x80) * 64 + (b3 - 0x80),
          rest3)
      else none
    | _ => none
  else none

/-- Strict UTF-8 decoding driver.  Each step consumes at least one byte, so a
fuel of the input length never runs out; the fuel only makes the structural
recursion evident. -/
def utf8Loop : Nat → List Nat → Option (List Char)
  | _, [] => some []
  | 0, _ :: _ => none
  | fuel + 1, b :: rest =>
    match utf8Step b rest with
    | some (cp, rem) => (utf8Loop fuel rem).map (fun cs => Char.ofNat cp :: cs)
    | none => none

/-- Strict UTF-8 decoding of a byte string to characters. -/
def utf8DecodeChars (l : List Nat) : Option (List Char) := utf8Loop l.length l

/-- UTF-8 decoding to a Python string. -/
def utf8Decode (l : List Nat) : Option String :=
  (utf8DecodeChars l).map (fun cs => ⟨cs⟩)

theorem char_toNat_lt (c : Char) : c.toNat < 0x110000 := by
  rcases c.valid with h | h
  · simp only [Char.toNat]; omega
  · simp only [Char.toNat]; omega

theorem char_toNat_not_surrogate (c : Char) :
    c.toNat < 0xD800 ∨ 0xDFFF < c.toNat := by
  rcases c.valid with h | h
  · left; simp only [Char.toNat]; omega
  · right; simp only [Char.toNat]; omega

theorem utf8EncodeCp_length_le (c : Nat) : (utf8EncodeCp c).length ≤ 4 := by
  unfold utf8EncodeCp
  split <;> simp_all
  split <;> simp_all
  split <;> simp_all

theorem utf8EncodeCp_length_pos (c : Nat) : 1 ≤ (utf8EncodeCp c).length := by
  unfold utf8EncodeCp
  split <;> simp_all
  split <;> simp_all
  split <;> simp_all

/-- A step applied to an encoded scalar value recovers it exactly. -/
theorem utf8Step_encode (c : Char) (r : List Nat) :
    ∃ b rest, utf8EncodeCp c.toNat ++ r = b :: rest ∧
      utf8Step b rest = some (c.toNat, r) := by
  have hlt := char_toNat_lt c
  have hsur := char_toNat_not_surrogate c
  by_cases h1 : c.toNat < 0x80
  · refine ⟨c.toNat, r, ?_, ?_⟩
    · rw [utf8EncodeCp, if_pos h1]; rfl
    · unfold utf8Step
      rw [if_pos h1]
  · by_cases h2 : c.toNat < 0x800
    · refine ⟨0xC0 + c.toNat / 64, (0x80 + c.toNat % 64) :: r, ?_, ?_⟩
      · rw [utf8EncodeCp, if_neg h1, if_pos h2]; rfl
      · have hc : isCont (0x80 + c.toNat % 64) = true := by
          simp only [isCont, Bool.and_eq_true, decide_eq_true_eq]; omega
        unfold utf8Step
        rw [if_neg (by omega), if_neg (by omega), if_pos (by omega)]
        simp only [hc, if_true]
        have : (0xC0 + c.toNat / 64 - 0xC0) * 64 + (0x80 + c.toNat % 64 - 0x80)
            = c.toNat := by omega
        rw [this]
    · by_cases h3 : c.toNat < 0x10000
      · refine ⟨0xE0 + c.toNat / 4096,
          (0x80 + c.toNat / 64 % 64) :: (0x80 + c.toNat % 64) :: r, ?_, ?_⟩
        · rw [utf8EncodeCp, if_neg h1, if_neg h2, if_pos h3]; rfl
        · have hcond : (if 0xE0 + c.toNat / 4096 = 0xE0 then
                0xA0 ≤ 0x80 + c.toNat / 64 % 64 && 0x80 + c.toNat / 64 % 64 < 0xC0
              else if 0xE0 + c.toNat / 4096 = 0xED then
                0x80 ≤ 0x80 + c.toNat / 64 % 64 && 0x80 + c.toNat / 64 % 64 < 0xA0
              else isCont (0x80 + c.toNat / 64 % 64)) = true := by
            by_cases he : 0xE0 + c.toNat / 4096 = 0xE0
            · rw [if_pos he]
              simp only [Bool.and_eq_true, decide_eq_true_eq]
              -- here c / 4096 = 0 and c ≥ 0x800 force c / 64 ∈ [32, 64)
              omega
            · rw [if_neg he]
              by_cases hd : 0xE0 + c.toNat / 4096 = 0xED
              · rw [if_pos hd]
                simp only [Bool.and_eq_true, decide_eq_true_eq]
                -- c / 4096 = 13 plus surrogate exclusion forces c / 64 % 64 < 32
                omega
              · rw [if_neg hd]
                simp only [isCont, Bool.and_eq_true, decide_eq_true_eq]
                omega
          have hc2 : isCont (0x80 + c.toNat % 64) = true := by
            simp only [isCont, Bool.and_eq_true, decide_eq_true_eq]; omega
          unfold utf8Step
          rw [if_neg (by omega), if_neg (by omega), if_neg (by omega), if_pos (by omega)]
          simp only [hcond, hc2, Bool.and_self, if_true]
          have : (0xE0 + c.toNat / 4096 - 0xE0) * 4096 +
              (0x80 + c.toNat / 64 % 64 - 0x80) * 64 + (0x80 + c.toNat % 64 - 0x80)
              = c.toNat := by omega
          rw [this]
      · refine ⟨0xF0 + c.toNat / 262144,
          (0x80 + c.toNat / 4096 % 64) :: (0x80 + c.toNat / 64 % 64) ::
            (0x80 + c.toNat % 64) :: r, ?_, ?_⟩
        · rw [utf8EncodeCp, if_neg h1, if_neg h2, if_neg h3]; rfl
        · have hcond : (if 0xF0 + c.toNat / 262144 = 0xF0 then
                0x90 ≤ 0x80 + c.toNat / 4096 % 64 && 0x80 + c.toNat / 4096 % 64 < 0xC0
              else if 0xF0 + c.toNat / 262144 = 0xF4 then
                0x80 ≤ 0x80 + c.toNat / 4096 % 64 && 0x80 + c.toNat / 4096 % 64 < 0x90
              else isCont (0x80 + c.toNat / 4096 % 64)) = true := by
            by_cases he : 0xF0 + c.toNat / 262144 = 0xF0
            · rw [if_pos he]
              simp only [Bool.and_eq_true, decide_eq_true_eq]
              -- c / 262144 = 0 and c ≥ 0x10000 force c / 4096 ∈ [16, 64)
              omega
            · rw [if_neg he]
              by_cases hd : 0xF0 + c.toNat / 262144 = 0xF4
              · rw [if_pos hd]
                simp only [Bool.and_eq_true, decide_eq_true_eq]
                -- c / 262144 = 4 and c < 0x110000 force c / 4096 % 64 < 16
                omega
              · rw [if_neg hd]
                simp only [isCont, Bool.and_eq_true, decide_eq_true_eq]
                omega
          have hc2 : isCont (0x80 + c.toNat / 64 % 64) = true := by
            simp only [isCont, Bool.and_eq_true, decide_eq_true_eq]; omega
          have hc3 : isCont (0x80 + c.toNat % 64) = true := by
            simp only [isCont, Bool.and_eq_true, decide_eq_true_eq]; omega
          unfold utf8Step
          rw [if_neg (by omega), if_neg (by omega), if_neg (by omega),
            if_neg (by omega), if_pos (by omega)]
          simp only [hcond, hc2, hc3, Bool.and_self, if_true]
          have : (0xF0 + c.toNat / 262144 - 0xF0) * 262144 +
              (0x80 + c.toNat / 4096 % 64 - 0x80) * 4096 +
              (0x80 + c.toNat / 64 % 64 - 0x80) * 64 + (0x80 + c.toNat % 64 - 0x80)
              = c.toNat := by omega
          rw [this]

/-- With enough fuel, the decode loop inverts the character encoder. -/
theorem utf8Loop_encode (cs : List Char) :
    ∀ fuel, (utf8EncodeChars cs).length ≤ fuel →
      utf8Loop fuel (utf8EncodeChars cs) = some cs := by
  induction cs with
  | nil => intro fuel _; cases fuel <;> rfl
  | cons c cs ih =>
      intro fuel hfuel
      rw [utf8EncodeChars] at hfuel ⊢
      obtain ⟨b, rest, henc, hstep⟩ := utf8Step_encode c (utf8EncodeChars cs)
      have hlen1 := utf8EncodeCp_length_pos c.toNat
      have hlen : 1 + (utf8EncodeChars cs).length ≤ fuel := by
        have : (utf8EncodeCp c.toNat ++ utf8EncodeChars cs).length =
            (utf8EncodeCp c.toNat).length + (utf8EncodeChars cs).length := by
          simp
        omega
      obtain ⟨f, rfl⟩ : ∃ f, fuel = f + 1 := ⟨fuel - 1, by omega⟩
      rw [henc, utf8Loop, hstep]
      simp only [ih f (by omega), Option.map_some']
      rw [Char.ofNat_toNat]

theorem utf8DecodeChars_encode (cs : List Char) :
    utf8DecodeChars (utf8EncodeChars cs) = some cs :=
  utf8Loop_encode cs _ le_rfl

theorem utf8Decode_encode (s : String) : utf8Decode (utf8Encode s) = some s := by
  rw [utf8Encode, utf8Decode, utf8DecodeChars_encode]
  rfl

theorem utf8EncodeChars_length_le (cs : List Char) :
    (utf8EncodeChars cs).length ≤ 4 * cs.length := by
  induction cs with
  | nil => simp [utf8EncodeChars]
  | cons c cs ih =>
      rw [utf8EncodeChars]
      have := utf8EncodeCp_length_le c.toNat
      simp only [List.length_append, List.length_cons]
      omega

/-! ## MD5 (`hashlib.md5`), used truncated to 4 bytes as the message checksum -/

/-- Little-endian bytes of `n` (mod `256^w`), `w` bytes wide. -/
def leBytes : Nat → Nat → List Nat
  | 0, _ => []
  | w + 1, n => n % 256 :: leBytes w (n / 256)

/-- Little-endian value of a byte string. -/
def leVal (l : List Nat) : Nat := l.foldr (fun b a => a * 256 + b) 0

/-- Bitwise complement on 32 bits. -/
def not32 (x : Nat) : Nat := 0xFFFFFFFF ^^^ (x % 2 ^ 32)

/-- Rotate a 32-bit word left by `s`. -/
def rotl32 (x s : Nat) : Nat :=
  ((x <<< s) ||| (x >>> (32 - s))) % 2 ^ 32

/-- The per-round sine-derived constants of RFC 1321. -/
def md5K : List Nat := [
  0xd76aa478, 0xe8c7b756, 0x242070db, 0xc1bdceee, 0xf57c0faf, 0x4787c62a,
  0xa8304613, 0xfd469501, 0x698098d8, 0x8b44f7af, 0xffff5bb1, 0x895cd7be,
  0x6b901122, 0xfd987193, 0xa679438e, 0x49b40821, 0xf61e2562, 0xc040b340,
  0x265e5a51, 0xe9b6c7aa, 0xd62f105d, 0x02441453, 0xd8a1e681, 0xe7d3fbc8,
  0x21e1cde6, 0xc33707d6, 0xf4d50d87, 0x455a14ed, 0xa9e3e905, 0xfcefa3f8,
  0x676f02d9, 0x8d2a4c8a, 0xfffa3942, 0x8771f681, 0x6d9d6122, 0xfde5380c,
  0xa4beea44, 0x4bdecfa9, 0xf6bb4b60, 0xbebfbc70, 0x289b7ec6, 0xeaa127fa,
  0xd4ef3085, 0x04881d05, 0xd9d4d039, 0xe6db99e5, 0x1fa27cf8, 0xc4ac5665,
  0xf4292244, 0x432aff97, 0xab9423a7, 0xfc93a039, 0x655b59c3, 0x8f0ccc92,
  0xffeff47d, 0x85845dd1, 0x6fa87e4f, 0xfe2ce6e0, 0xa3014314, 0x4e0811a1,
  0xf7537e82, 0xbd3af235, 0x2ad7d2bb, 0xeb86d391]

/-- The per-round left-rotation amounts of RFC 1321. -/
def md5S : List Nat := [
  7, 12, 17, 22, 7, 12, 17, 22, 7, 12, 17, 22, 7, 12, 17, 22,
  5, 9, 14, 20, 5, 9, 14, 20, 5, 9, 14, 20, 5, 9, 14, 20,
  4, 11, 16, 23, 4, 11, 16, 23, 4, 11, 16, 23, 4, 11, 16, 23,
  6, 10, 15, 21, 6, 10, 15, 21, 6, 10, 15, 21, 6, 10, 15, 21]

/-- Mixing function and message-word index for round `i`. -/
def md5FG (i b c d : Nat) : Nat × Nat :=
  if i < 16 then ((b &&& c) ||| (not32 b &&& d), i)
  else if i < 32 then ((d &&& b) ||| (not32 d &&& c), (5 * i + 1) % 16)
  else if i < 48 then (b ^^^ c ^^^ d, (3 * i + 5) % 16)
  else (c ^^^ (b ||| not32 d), (7 * i) % 16)

/-- One MD5 round applied to the running state over a 64-byte block. -/
def md5Round (block : List Nat) (st : Nat × Nat × Nat × Nat) (i : Nat) :
    Nat × Nat × Nat × Nat :=
  let (a, b, c, d) := st
  let (f, g) := md5FG i b c d
  let m := leVal ((block.drop (4 * g)).take 4)
  let f' := (f + a + md5K.getD i 0 + m) % 2 ^ 32
  (d, (b + rotl32 f' (md5S.getD i 0)) % 2 ^ 32, b, c)

/-- Process one 64-byte block. -/
def md5Block (st : Nat × Nat × Nat × Nat) (block : List Nat) :
    Nat × Nat × Nat × Nat :=
  let (a0, b0, c0, d0) := st
  let (a, b, c, d) := (List.range 64).foldl (md5Round block) st
  ((a0 + a) % 2 ^ 32, (b0 + b) % 2 ^ 32, (c0 + c) % 2 ^ 32, (d0 + d) % 2 ^ 32)

/-- MD5 padding: a `0x80` byte, zeros to 56 mod 64, then the bit length as a
little-endian 64-bit integer. -/
def md5Pad (msg : List Nat) : List Nat :=
  msg ++ [0x80] ++ List.replicate ((119 - msg.length % 64) % 64) 0 ++
    leBytes 8 (msg.length * 8)

/-- The padded message split into 64-byte blocks. -/
def md5Blocks (l : List Nat) : List (List Nat) :=
  (List.range (l.length / 64)).map (fun i => (l.drop (64 * i)).take 64)

/-- The 16-byte MD5 digest of a byte string (`hashlib.md5(data).digest()`). -/
def md5 (msg : List Nat) : List Nat :=
  let (a, b, c, d) :=
    (md5Blocks (md5Pad msg)).foldl md5Block
      (0x67452301, 0xefcdab89, 0x98badcfe, 0x10325476)
  leBytes 4 a ++ leBytes 4 b ++ leBytes 4 c ++ leBytes 4 d

/-- The message checksum: the first four digest bytes
(`hashlib.md5(data).digest()[:4]`). -/
def md5trunc4 (msg : List Nat) : List Nat := (md5 msg).take 4

-- Sanity checks against `hashlib`: the empty and "abc" digests of RFC 1321.
example : md5 [] =
    [0xd4, 0x1d, 0x8c, 0xd9, 0x8f, 0x00, 0xb2, 0x04,
     0xe9, 0x80, 0x09, 0x98, 0xec, 0xf8, 0x42, 0x7e] := by decide

example : md5 [0x61, 0x62, 0x63] =
    [0x90, 0x01, 0x50, 0x98, 0x3c, 0xd2, 0x4f, 0xb0,
     0xd6, 0x96, 0x3f, 0x7d, 0x28, 0xe1, 0x7f, 0x72] := by decide

theorem leBytes_length (w n : Nat) : (leBytes w n).length = w := by
  induction w generalizing n with
  | zero => rfl
  | succ w ih => simp [leBytes, ih]

theorem md5_length (msg : List Nat) : (md5 msg).length = 16 := by
  rw [md5]
  obtain ⟨⟨a, b, c, d⟩, h⟩ :
      ∃ x : Nat × Nat × Nat × Nat,
        (md5Blocks (md5Pad msg)).foldl md5Block
          (0x67452301, 0xefcdab89, 0x98badcfe, 0x10325476) = x :=
    ⟨_, rfl⟩
  rw [h]
  simp [leBytes_length]

theorem md5trunc4_length (msg : List Nat) : (md5trunc4 msg).length = 4 := by
  rw [md5trunc4, List.length_take, md5_length]
  decide

/-! ## Protocol errors

Each constructor stands for one Python exception site (`ValueError`,
`struct.error`, `IndexError`, `UnicodeDecodeError`); the spec's taxonomy (§7)
classifies all of them as `FormatError` except the checksum mismatch, which is
its `IntegrityError`. -/

inductive PErr where
  | emptyName          -- ValueError "Topic name cannot be empty"
  | nameTooLong        -- ValueError "Topic name cannot exceed 64 characters"
  | tooShort           -- ValueError "Message too short"
  | invalidMagic       -- ValueError "Invalid magic byte"
  | checksumMismatch   -- ValueError "Checksum mismatch"
  | truncated          -- struct.error / IndexError on an undersized buffer
  | badUtf8            -- UnicodeDecodeError from bytes.decode('utf-8')
  | invalidMessageType -- ValueError from MessageType(...)
  | payloadTooLarge    -- ValueError "Payload size ... exceeds maximum"
  | unknownDataType    -- ValueError "Unknown data type"
  | bytesExpected      -- ValueError "Value must be bytes for BYTES data type"
  | rangeError         -- struct.error: integer argument out of the format's range
  | overflow           -- OverflowError (float too large for format, int(inf), ...)
  | reprUnmodeled      -- modeling boundary: Python would coerce via a repr/parse
                       --   (str of float, float of str, ...) not modeled here
  deriving DecidableEq, Repr

/-- The spec's §7 taxonomy: every malformed-input failure is a `FormatError`;
only the checksum mismatch is an `IntegrityError`. -/
def PErr.isFormatError : PErr → Bool
  | .checksumMismatch => false
  | _ => true

/-! ## Topic codec (`BristlemouthTopic`) -/

structure BristlemouthTopic where
  name : String
  version : Nat := 1
  node_id : Option String := none
  deriving DecidableEq, Repr

/-- `BristlemouthTopic(...)` with its `__post_init__` validation: the name must
be non-empty and at most 64 *characters* (`len` of a Python `str`). -/
def BristlemouthTopic.create (name : String) (version : Nat := 1)
    (node_id : Option String := none) : Except PErr BristlemouthTopic :=
  if name = "" then .error .emptyName
  else if 64 < name.length then .error .nameTooLong
  else .ok ⟨name, version, node_id⟩

/-- `BristlemouthTopic.to_bytes`: version byte, 16-bit big-endian name length,
UTF-8 name bytes. -/
def BristlemouthTopic.toBytes (t : BristlemouthTopic) : List Nat :=
  let nb := utf8Encode t.name
  beBytes 1 t.version ++ beBytes 2 nb.length ++ nb

/-- `BristlemouthTopic.from_bytes`, including the constructor validation it
triggers. -/
def BristlemouthTopic.fromBytes (data : List Nat) : Except PErr BristlemouthTopic :=
  match data with
  | [] => .error .truncated
  | v :: rest =>
    if rest.length < 2 then .error .truncated
    else
      let nameLen := beVal (rest.take 2)
      let nameBytes := (rest.drop 2).take nameLen
      match utf8Decode nameBytes with
      | none => .error .badUtf8
      | some name => BristlemouthTopic.create name v

/-! ## Message codec (`BristlemouthMessage`) -/

/-- `int(q)` on a Python number: truncation toward zero. -/
def pyInt (q : ℚ) : Int := Int.tdiv q.num q.den

structure BristlemouthMessage where
  topic : BristlemouthTopic
  payload : List Nat
  message_type : Nat := 1    -- MessageType.SENSOR_DATA
  version : Nat := 1         -- BCMP_PROTOCOL_VERSION
  sequence_number : Nat := 0
  timestamp : ℚ
  source_node_id : Option (List Nat) := none
  deriving DecidableEq, Repr

/-- `BristlemouthMessage(...)` with its `__post_init__` payload-size check
(`MAX_PAYLOAD_SIZE = 1400`). -/
def BristlemouthMessage.create (topic : BristlemouthTopic) (payload : List Nat)
    (message_type : Nat := 1) (version : Nat := 1) (sequence_number : Nat := 0)
    (timestamp : ℚ := 0) (source_node_id : Option (List Nat) := none) :
    Except PErr BristlemouthMessage :=
  if 1400 < payload.length then .error .payloadTooLarge
  else .ok ⟨topic, payload, message_type, version, sequence_number, timestamp,
    source_node_id⟩

/-- The six source-id bytes: `self.source_node_id or b'\x00' * 6` (an absent or
empty id becomes six zero bytes), then `struct`'s `6s` pads or truncates to
exactly six bytes. -/
def sourceId6 (src : Option (List Nat)) : List Nat :=
  let sid := match src with
    | none => List.replicate 6 0
    | some l => if l = [] then List.replicate 6 0 else l
  (sid ++ List.replicate 6 0).take 6

/-- `BristlemouthMessage._pack_without_checksum`: the 22-byte header
(magic, version, type, sequence, millisecond timestamp, source id), then the
length-prefixed topic bytes and length-prefixed payload. The `beBytes`
wrap-around and the `.toNat` clamp never fire on `wireValid` messages, which
is exactly the domain on which this agrees with `struct.pack` (outside it the
program raises `struct.error` instead of producing bytes). -/
def BristlemouthMessage.packNoChecksum (m : BristlemouthMessage) : List Nat :=
  let topicBytes := m.topic.toBytes
  beBytes 1 0xBC ++ beBytes 1 m.version ++ beBytes 2 m.message_type ++
    beBytes 4 m.sequence_number ++ beBytes 8 (pyInt (m.timestamp * 1000)).toNat ++
    sourceId6 m.source_node_id ++
    beBytes 2 topicBytes.length ++ topicBytes ++
    beBytes 2 m.payload.length ++ m.payload

/-- `BristlemouthMessage.calculate_checksum`: the first four MD5 digest bytes of
the packed message. -/
def BristlemouthMessage.calculateChecksum (m : BristlemouthMessage) : List Nat :=
  md5trunc4 m.packNoChecksum

/-- `BristlemouthMessage.to_bytes`: packed message followed by its checksum. -/
def BristlemouthMessage.toBytes (m : BristlemouthMessage) : List Nat :=
  m.packNoChecksum ++ m.calculateChecksum

/-- `BristlemouthMessage.from_bytes`: parse and validate, reconstruct the
message, then recompute the checksum over the decoded fields and compare it
with the trailing four bytes. -/
def BristlemouthMessage.fromBytes (data : List Nat) :
    Except PErr BristlemouthMessage :=
  if data.length < 22 then .error .tooShort
  else
    let magic := data.getD 0 0
    let version := data.getD 1 0
    let msgType := beVal ((data.drop 2).take 2)
    let seqNum := beVal ((data.drop 4).take 4)
    let tsMs := beVal ((data.drop 8).take 8)
    let sourceId := (data.drop 16).take 6
    if magic ≠ 0xBC then .error .invalidMagic
    else
      let rest := data.drop 22
      if rest.length < 2 then .error .truncated
      else
        let topicLen := beVal (rest.take 2)
        match BristlemouthTopic.fromBytes ((rest.drop 2).take topicLen) with
        | .error e => .error e
        | .ok topic =>
          let rest2 := (rest.drop 2).drop topicLen
          if rest2.length < 2 then .error .truncated
          else
            let payloadLen := beVal (rest2.take 2)
            let payload := (rest2.drop 2).take payloadLen
            let received := ((rest2.drop 2).drop payloadLen).take 4
            if 10 < msgType then .error .invalidMessageType
            else if 1400 < payload.length then .error .payloadTooLarge
            else
              let msg : BristlemouthMessage :=
                ⟨topic, payload, msgType, version, seqNum, (tsMs : ℚ) / 1000,
                  some sourceId⟩
              if received ≠ msg.calculateChecksum then .error .checksumMismatch
              else .ok msg

theorem beBytes_one (n : Nat) : beBytes 1 n = [n % 256] := rfl

theorem utf8Encode_length_le (s : String) :
    (utf8Encode s).length ≤ 4 * s.length := by
  have h := utf8EncodeChars_length_le s.data
  have : s.length = s.data.length := rfl
  rw [utf8Encode]
  omega

/-- Decoding an encoded topic recovers the name and version (the node id is not
serialized). -/
theorem BristlemouthTopic.fromBytes_toBytes (t : BristlemouthTopic)
    (h1 : t.name ≠ "") (h2 : t.name.length ≤ 64) (h3 : t.version < 256) :
    BristlemouthTopic.fromBytes t.toBytes = .ok ⟨t.name, t.version, none⟩ := by
  have hnb : (utf8Encode t.name).length < 65536 := by
    have := utf8Encode_length_le t.name
    omega
  have htb : t.toBytes
      = t.version :: (beBytes 2 (utf8Encode t.name).length ++ utf8Encode t.name) := by
    rw [BristlemouthTopic.toBytes, beBytes_one, Nat.mod_eq_of_lt h3]
    rfl
  rw [htb, BristlemouthTopic.fromBytes]
  have hlen : ¬ (beBytes 2 (utf8Encode t.name).length ++ utf8Encode t.name).length < 2 := by
    simp [beBytes_length]
  rw [if_neg hlen, List.take_left' (beBytes_length 2 _),
    beVal_beBytes_of_lt hnb, List.drop_left' (beBytes_length 2 _)]
  simp only [List.take_length, utf8Decode_encode, BristlemouthTopic.create,
    if_neg h1, if_neg (show ¬ 64 < t.name.length by omega)]

/-- C6 (amended): the constructor accepts exactly the names of 1 to 64
*characters* (Python `len` on `str`): an empty name fails with `FormatError`
("empty name"), a name longer than 64 characters fails with `FormatError`
("name too long"), and every other name is accepted. -/
theorem C6_topic_name_validation (name : String) (version : Nat) :
    (BristlemouthTopic.create name version = .error .emptyName ↔ name = "") ∧
    (BristlemouthTopic.create name version = .error .nameTooLong ↔
      (name ≠ "" ∧ 64 < name.length)) ∧
    ((∃ t, BristlemouthTopic.create name version = .ok t) ↔
      (name ≠ "" ∧ name.length ≤ 64)) := by
  refine ⟨?_, ?_, ?_⟩
  · constructor
    · intro h
      by_contra hne
      rw [BristlemouthTopic.create, if_neg hne] at h
      by_cases hl : 64 < name.length
      · rw [if_pos hl] at h; exact PErr.noConfusion (Except.error.inj h)
      · rw [if_neg hl] at h; exact Except.noConfusion h
    · intro h; rw [BristlemouthTopic.create, if_pos h]
  · constructor
    · intro h
      by_cases hne : name = ""
      · rw [BristlemouthTopic.create, if_pos hne] at h
        exact absurd (Except.error.inj h) (by intro hx; exact PErr.noConfusion hx)
      · refine ⟨hne, ?_⟩
        by_contra hl
        rw [BristlemouthTopic.create, if_neg hne, if_neg hl] at h
        exact Except.noConfusion h
    · intro ⟨hne, hl⟩
      rw [BristlemouthTopic.create, if_neg hne, if_pos hl]
  · constructor
    · intro ⟨t, ht⟩
      by_cases hne : name = ""
      · rw [BristlemouthTopic.create, if_pos hne] at ht; exact Except.noConfusion ht
      · refine ⟨hne, ?_⟩
        by_contra hl
        rw [BristlemouthTopic.create, if_neg hne, if_pos (by omega)] at ht
        exact Except.noConfusion ht
    · intro ⟨hne, hl⟩
      exact ⟨⟨name, version, none⟩, by
        rw [BristlemouthTopic.create, if_neg hne, if_neg (by omega)]⟩

/-- Concrete instantiation of `C6_topic_name_validation`. -/
theorem C6_topic_name_validation_witness :
    (∃ t, BristlemouthTopic.create "spotter/sensor/temperature" 1 = .ok t) ∧
    BristlemouthTopic.create "" 1 = .error .emptyName :=
  ⟨(C6_topic_name_validation "spotter/sensor/temperature" 1).2.2.2
      ⟨by decide, by decide⟩,
    (C6_topic_name_validation "" 1).1.2 rfl⟩

/-- The 64-character name used to refute C6's byte-length reading: 64 copies of
`é`, whose UTF-8 encoding is 128 bytes. -/
def c6Name : String := ⟨List.replicate 64 (Char.ofNat 233)⟩

set_option maxRecDepth 4000 in
/-- C6 counterexample: a topic name whose UTF-8 encoding is 128 bytes — far over
the claimed 64-byte bound — is nevertheless accepted, because the code bounds
the *character* count, not the UTF-8 byte count. -/
theorem C6_counterexample :
    (utf8Encode c6Name).length = 128 ∧
    BristlemouthTopic.create c6Name 1 = .ok ⟨c6Name, 1, none⟩ := by
  constructor
  · decide
  · rfl

/-! ## Message round-trip support -/

/-- The millisecond value the header carries: `int(self.timestamp * 1000)`,
clamped to `Nat` (the claims only quantify over nonnegative values, where the
clamp is the identity). -/
def msNat (m : BristlemouthMessage) : Nat := (pyInt (m.timestamp * 1000)).toNat

/-- The message `from_bytes` reconstructs from a valid encoding: same topic name
and version (node id erased), payload, kind, sequence and version; the timestamp
quantized to milliseconds; the source id normalized to its six wire bytes. -/
def decodedOf (m : BristlemouthMessage) : BristlemouthMessage :=
  ⟨⟨m.topic.name, m.topic.version, none⟩, m.payload, m.message_type, m.version,
    m.sequence_number, (msNat m : ℚ) / 1000, some (sourceId6 m.source_node_id)⟩

/-- The ranges in which every header field must lie for `struct.pack` to accept
the message: exactly the domain on which the byte-level embedding agrees with
the Python code. -/
def BristlemouthMessage.wireValid (m : BristlemouthMessage) : Prop :=
  m.topic.name ≠ "" ∧ m.topic.name.length ≤ 64 ∧ m.topic.version < 256 ∧
  m.version < 256 ∧ m.message_type ≤ 10 ∧ m.sequence_number < 2 ^ 32 ∧
  m.payload.length ≤ 1400 ∧ 0 ≤ pyInt (m.timestamp * 1000) ∧
  pyInt (m.timestamp * 1000) < 2 ^ 64

instance (m : BristlemouthMessage) : Decidable m.wireValid := by
  unfold BristlemouthMessage.wireValid
  infer_instance

theorem pyInt_natCast (k : ℕ) : pyInt (k : ℚ) = k := by
  rw [pyInt, Rat.num_natCast, Rat.den_natCast]
  exact Int.tdiv_one k

theorem sourceId6_length (src : Option (List Nat)) : (sourceId6 src).length = 6 := by
  rw [sourceId6.eq_def]
  cases src with
  | none => simp
  | some l =>
      by_cases h : l = [] <;> simp [h]

theorem sourceId6_idem (src : Option (List Nat)) :
    sourceId6 (some (sourceId6 src)) = sourceId6 src := by
  have h6 := sourceId6_length src
  have hne : sourceId6 src ≠ [] := by
    intro h
    rw [h] at h6
    simp at h6
  conv_lhs => rw [sourceId6.eq_def]
  simp only [if_neg hne]
  exact List.take_left' (by simp [h6])

theorem toBytes_erase_node (t : BristlemouthTopic) :
    BristlemouthTopic.toBytes ⟨t.name, t.version, none⟩ = t.toBytes := rfl

theorem msNat_decodedOf (m : BristlemouthMessage) : msNat (decodedOf m) = msNat m := by
  rw [msNat, decodedOf]
  have : ((msNat m : ℚ) / 1000) * 1000 = (msNat m : ℚ) := by
    field_simp
  rw [this, pyInt_natCast]
  rfl

theorem packNoChecksum_decodedOf (m : BristlemouthMessage) :
    (decodedOf m).packNoChecksum = m.packNoChecksum := by
  have hms := msNat_decodedOf m
  rw [msNat, decodedOf] at hms
  rw [BristlemouthMessage.packNoChecksum, BristlemouthMessage.packNoChecksum]
  simp only [decodedOf, toBytes_erase_node, hms, sourceId6_idem]
  rfl

theorem calculateChecksum_decodedOf (m : BristlemouthMessage) :
    (decodedOf m).calculateChecksum = m.calculateChecksum := by
  rw [BristlemouthMessage.calculateChecksum, BristlemouthMessage.calculateChecksum,
    packNoChecksum_decodedOf]

theorem drop_chunk {a : List Nat} {k : Nat} (h : a.length = k) (rest : List Nat)
    (n : Nat) : (a ++ rest).drop (k + n) = rest.drop n := by
  subst h
  exact List.drop_append n

set_option maxHeartbeats 1000000 in
/-- Parsing a packed message followed by any four trailing bytes: the decoded
message is `decodedOf m`, accepted exactly when the trailing bytes equal the
recomputed checksum. -/
theorem BristlemouthMessage.fromBytes_pack (m : BristlemouthMessage)
    (hv : m.wireValid) (cs : List Nat) (hcs : cs.length = 4) :
    BristlemouthMessage.fromBytes (m.packNoChecksum ++ cs) =
      if cs = m.calculateChecksum then .ok (decodedOf m)
      else .error .checksumMismatch := by
  obtain ⟨hn, hl, htv, hver, hmt, hseq, hpay, hms0, hms1⟩ := hv
  have hmslt : msNat m < 2 ^ 64 := by
    rw [msNat]; omega
  have hnbl : (utf8Encode m.topic.name).length ≤ 256 := by
    have := utf8Encode_length_le m.topic.name
    omega
  have htbl : m.topic.toBytes.length = 3 + (utf8Encode m.topic.name).length := by
    rw [BristlemouthTopic.toBytes]
    simp [beBytes_length]
    omega
  have hdata : m.packNoChecksum ++ cs =
      0xBC :: m.version ::
        (beBytes 2 m.message_type ++ (beBytes 4 m.sequence_number ++
          (beBytes 8 (msNat m) ++ (sourceId6 m.source_node_id ++
            (beBytes 2 m.topic.toBytes.length ++ (m.topic.toBytes ++
              (beBytes 2 m.payload.length ++ (m.payload ++ cs)))))))) := by
    rw [BristlemouthMessage.packNoChecksum, beBytes_one, beBytes_one,
      Nat.mod_eq_of_lt (show 0xBC < 256 by norm_num), Nat.mod_eq_of_lt hver]
    simp [List.append_assoc, msNat]
  have hlen22 : ¬ (m.packNoChecksum ++ cs).length < 22 := by
    rw [hdata]
    simp [beBytes_length, sourceId6_length]
    omega
  have hg0 : (m.packNoChecksum ++ cs).getD 0 0 = 0xBC := by
    rw [hdata]; rfl
  have hg1 : (m.packNoChecksum ++ cs).getD 1 0 = m.version := by
    rw [hdata]; rfl
  have h2 : ((m.packNoChecksum ++ cs).drop 2).take 2 = beBytes 2 m.message_type := by
    rw [hdata]
    simp only [List.drop_succ_cons, List.drop_zero]
    exact List.take_left' (beBytes_length 2 _)
  have h4 : ((m.packNoChecksum ++ cs).drop 4).take 4 = beBytes 4 m.sequence_number := by
    rw [hdata]
    simp only [List.drop_succ_cons]
    rw [show (2 : ℕ) = 2 + 0 from rfl, drop_chunk (beBytes_length 2 _), List.drop_zero]
    exact List.take_left' (beBytes_length 4 _)
  have h8 : ((m.packNoChecksum ++ cs).drop 8).take 8 = beBytes 8 (msNat m) := by
    rw [hdata]
    simp only [List.drop_succ_cons]
    rw [show (6 : ℕ) = 2 + 4 from rfl, drop_chunk (beBytes_length 2 _),
      show (4 : ℕ) = 4 + 0 from rfl, drop_chunk (beBytes_length 4 _), List.drop_zero]
    exact List.take_left' (beBytes_length 8 _)
  have h16 : ((m.packNoChecksum ++ cs).drop 16).take 6 = sourceId6 m.source_node_id := by
    rw [hdata]
    simp only [List.drop_succ_cons]
    rw [show (14 : ℕ) = 2 + 12 from rfl, drop_chunk (beBytes_length 2 _),
      show (12 : ℕ) = 4 + 8 from rfl, drop_chunk (beBytes_length 4 _),
      show (8 : ℕ) = 8 + 0 from rfl, drop_chunk (beBytes_length 8 _), List.drop_zero]
    exact List.take_left' (sourceId6_length _)
  have h22 : (m.packNoChecksum ++ cs).drop 22 =
      beBytes 2 m.topic.toBytes.length ++ (m.topic.toBytes ++
        (beBytes 2 m.payload.length ++ (m.payload ++ cs))) := by
    rw [hdata]
    simp only [List.drop_succ_cons]
    rw [show (20 : ℕ) = 2 + 18 from rfl, drop_chunk (beBytes_length 2 _),
      show (18 : ℕ) = 4 + 14 from rfl, drop_chunk (beBytes_length 4 _),
      show (14 : ℕ) = 8 + 6 from rfl, drop_chunk (beBytes_length 8 _),
      show (6 : ℕ) = 6 + 0 from rfl, drop_chunk (sourceId6_length _), List.drop_zero]
  have hmt2 : m.message_type < 256 ^ 2 := by norm_num; omega
  have hseq4 : m.sequence_number < 256 ^ 4 := by
    have : (256 : ℕ) ^ 4 = 2 ^ 32 := by norm_num
    omega
  have hms8 : msNat m < 256 ^ 8 := by
    have : (256 : ℕ) ^ 8 = 2 ^ 64 := by norm_num
    omega
  have htblt : m.topic.toBytes.length < 256 ^ 2 := by
    have : (256 : ℕ) ^ 2 = 65536 := by norm_num
    omega
  have hplt : m.payload.length < 256 ^ 2 := by
    have : (256 : ℕ) ^ 2 = 65536 := by norm_num
    omega
  unfold BristlemouthMessage.fromBytes
  rw [if_neg hlen22]
  simp only [hg0, hg1, h2, h4, h8, h16, h22,
    beVal_beBytes_of_lt hmt2, beVal_beBytes_of_lt hseq4, beVal_beBytes_of_lt hms8,
    beVal_beBytes_of_lt htblt, beVal_beBytes_of_lt hplt]
  rw [if_neg (show ¬ (0xBC : ℕ) ≠ 0xBC by simp)]
  rw [if_neg (show ¬ (beBytes 2 m.topic.toBytes.length ++ (m.topic.toBytes ++
      (beBytes 2 m.payload.length ++ (m.payload ++ cs)))).length < 2 by
    simp [beBytes_length])]
  rw [List.take_left' (beBytes_length 2 _), beVal_beBytes_of_lt htblt,
    List.drop_left' (beBytes_length 2 _), List.take_left,
    BristlemouthTopic.fromBytes_toBytes m.topic hn hl htv]
  simp only []
  rw [List.drop_left]
  rw [if_neg (show ¬ (beBytes 2 m.payload.length ++ (m.payload ++ cs)).length < 2 by
    simp [beBytes_length])]
  rw [List.take_left' (beBytes_length 2 _), beVal_beBytes_of_lt hplt,
    List.drop_left' (beBytes_length 2 _), List.take_left, List.drop_left]
  rw [show cs.take 4 = cs from by rw [← hcs, List.take_length]]
  rw [if_neg (show ¬ (10 : ℕ) < m.message_type by omega)]
  rw [if_neg (show ¬ (1400 : ℕ) < m.payload.length by omega)]
  have hmsg : (⟨⟨m.topic.name, m.topic.version, none⟩, m.payload, m.message_type,
      m.version, m.sequence_number, ((msNat m : ℕ) : ℚ) / 1000,
      some (sourceId6 m.source_node_id)⟩ : BristlemouthMessage) = decodedOf m := rfl
  rw [hmsg, calculateChecksum_decodedOf]
  by_cases hchk : cs = m.calculateChecksum
  · rw [if_neg (show ¬ cs ≠ m.calculateChecksum by simpa using hchk), if_pos hchk]
  · rw [if_pos hchk, if_neg hchk]

/-! ## C3: message encode/decode round-trip -/

/-- C3: decoding the encoding of any wire-valid message succeeds and preserves
the topic name (and version), the payload bytes, the message kind, the
sequence number and the protocol version; the decoded timestamp is the
original truncated to whole milliseconds (`int(timestamp * 1000) / 1000`), so
a timestamp that already has millisecond precision comes back exactly. -/
theorem C3_message_roundtrip (m : BristlemouthMessage) (hv : m.wireValid) :
    ∃ m', BristlemouthMessage.fromBytes m.toBytes = .ok m' ∧
      m'.topic.name = m.topic.name ∧ m'.topic.version = m.topic.version ∧
      m'.payload = m.payload ∧ m'.message_type = m.message_type ∧
      m'.sequence_number = m.sequence_number ∧ m'.version = m.version ∧
      m'.timestamp = ((pyInt (m.timestamp * 1000)).toNat : ℚ) / 1000 ∧
      (∀ k : ℕ, m.timestamp = (k : ℚ) / 1000 → m'.timestamp = m.timestamp) := by
  have hcs4 : m.calculateChecksum.length = 4 := by
    rw [BristlemouthMessage.calculateChecksum]
    exact md5trunc4_length _
  refine ⟨decodedOf m, ?_, rfl, rfl, rfl, rfl, rfl, rfl, rfl, ?_⟩
  · rw [BristlemouthMessage.toBytes,
      BristlemouthMessage.fromBytes_pack m hv m.calculateChecksum hcs4, if_pos rfl]
  · intro k hts
    have hms : msNat m = k := by
      rw [msNat, hts, div_mul_cancel₀ _ (show (1000 : ℚ) ≠ 0 by norm_num),
        pyInt_natCast]
      exact Int.toNat_natCast k
    show (msNat m : ℚ) / 1000 = m.timestamp
    rw [hms, hts]

/-- The concrete message used to instantiate C3's round-trip theorem. -/
def mC3 : BristlemouthMessage :=
  ⟨⟨"spotter/sensor/temperature", 1, none⟩, [1, 2, 3], 1, 1, 7,
    (1234 : ℚ) / 1000, none⟩

theorem mC3_pyInt : pyInt (mC3.timestamp * 1000) = 1234 := by
  have h : mC3.timestamp * 1000 = ((1234 : ℕ) : ℚ) := by
    show ((1234 : ℚ) / 1000) * 1000 = _
    norm_num
  rw [h, pyInt_natCast]
  rfl

theorem mC3_wireValid : mC3.wireValid := by
  refine ⟨by decide, by decide, by decide, by decide, by decide, by decide,
    by decide, ?_, ?_⟩ <;> rw [mC3_pyInt] <;> decide

/-- Concrete instantiation of `C3_message_roundtrip`. -/
theorem C3_message_roundtrip_witness :
    ∃ m', BristlemouthMessage.fromBytes mC3.toBytes = .ok m' ∧
      m'.topic.name = mC3.topic.name ∧ m'.topic.version = mC3.topic.version ∧
      m'.payload = mC3.payload ∧ m'.message_type = mC3.message_type ∧
      m'.sequence_number = mC3.sequence_number ∧ m'.version = mC3.version ∧
      m'.timestamp = ((pyInt (mC3.timestamp * 1000)).toNat : ℚ) / 1000 ∧
      (∀ k : ℕ, mC3.timestamp = (k : ℚ) / 1000 → m'.timestamp = mC3.timestamp) :=
  C3_message_roundtrip mC3 mC3_wireValid

/-! ## C4: decode failure modes -/

/-- `flip one bit`: replace byte `i` of `data` by itself xor `2^k`. -/
def flipBit (data : List Nat) (i k : Nat) : List Nat :=
  data.set i (data.getD i 0 ^^^ 2 ^ k)

theorem set_append_right (l1 l2 : List Nat) (j x : Nat) :
    (l1 ++ l2).set (l1.length + j) x = l1 ++ l2.set j x := by
  induction l1 with
  | nil => simp
  | cons a t ih =>
      simp only [List.cons_append, List.length_cons]
      have harith : t.length + 1 + j = (t.length + j) + 1 := by omega
      rw [harith]
      show a :: (t ++ l2).set (t.length + j) x = a :: (t ++ l2.set j x)
      rw [ih]

theorem getD_set_self (l : List Nat) (j v : Nat) (h : j < l.length) :
    (l.set j v).getD j 0 = v := by
  induction l generalizing j with
  | nil => simp at h
  | cons a t ih =>
      cases j with
      | zero => rfl
      | succ n =>
          show (a :: t.set n v).getD (n + 1) 0 = v
          rw [List.getD_cons_succ]
          exact ih n (by simpa using h)

theorem set_ne_of_getD_ne (l : List Nat) (j v : Nat) (h : j < l.length)
    (hne : v ≠ l.getD j 0) : l.set j v ≠ l := by
  intro heq
  have := getD_set_self l j v h
  rw [heq] at this
  exact hne this.symm

/-- Decoding an undersized buffer fails immediately with "too short". -/
theorem fromBytes_tooShort (data : List Nat) (h : data.length < 22) :
    BristlemouthMessage.fromBytes data = .error .tooShort := by
  unfold BristlemouthMessage.fromBytes
  rw [if_pos h]

/-- Decoding a buffer of at least 22 bytes whose first byte is not `0xBC` fails
with "invalid magic". -/
theorem fromBytes_badMagic (data : List Nat) (h : 22 ≤ data.length)
    (hm : data.getD 0 0 ≠ 0xBC) :
    BristlemouthMessage.fromBytes data = .error .invalidMagic := by
  unfold BristlemouthMessage.fromBytes
  rw [if_neg (by omega)]
  simp only [if_pos hm]

/-- A packed valid message followed by four bytes that differ from the
recomputed checksum fails with "checksum mismatch". -/
theorem fromBytes_checksumMismatch (m : BristlemouthMessage) (hv : m.wireValid)
    (cs : List Nat) (hcs : cs.length = 4) (hne : cs ≠ m.calculateChecksum) :
    BristlemouthMessage.fromBytes (m.packNoChecksum ++ cs)
      = .error .checksumMismatch := by
  rw [BristlemouthMessage.fromBytes_pack m hv cs hcs, if_neg hne]

/-- C4 (amended): decoding fails with `FormatError` "too short" on fewer than 22
bytes and with `FormatError` "invalid magic" when 22 bytes are present but the
first is not `0xBC` (other malformed inputs also fail with `FormatError`, so
these two are not the only `FormatError` failures); a packed valid message
whose four trailing bytes disagree with the recomputed checksum fails with
`IntegrityError`; in particular flipping any single bit of the four checksum
bytes of a valid encoding fails with `IntegrityError`, and replacing the first
byte of a valid encoding with anything other than `0xBC` fails with
`FormatError` "invalid magic". -/
theorem C4_decode_failure_modes :
    (∀ data : List Nat, data.length < 22 →
      BristlemouthMessage.fromBytes data = .error .tooShort ∧
        PErr.tooShort.isFormatError = true) ∧
    (∀ data : List Nat, 22 ≤ data.length → data.getD 0 0 ≠ 0xBC →
      BristlemouthMessage.fromBytes data = .error .invalidMagic ∧
        PErr.invalidMagic.isFormatError = true) ∧
    (∀ m : BristlemouthMessage, m.wireValid → ∀ cs : List Nat, cs.length = 4 →
      cs ≠ m.calculateChecksum →
      BristlemouthMessage.fromBytes (m.packNoChecksum ++ cs)
        = .error .checksumMismatch ∧ PErr.checksumMismatch.isFormatError = false) ∧
    (∀ m : BristlemouthMessage, m.wireValid → ∀ j k : Nat, j < 4 → k < 8 →
      BristlemouthMessage.fromBytes
          (flipBit m.toBytes (m.packNoChecksum.length + j) k)
        = .error .checksumMismatch) ∧
    (∀ m : BristlemouthMessage, m.wireValid → ∀ v : Nat, v ≠ 0xBC →
      BristlemouthMessage.fromBytes (m.toBytes.set 0 v)
        = .error .invalidMagic) := by
  refine ⟨fun data h => ⟨fromBytes_tooShort data h, rfl⟩,
    fun data h hm => ⟨fromBytes_badMagic data h hm, rfl⟩,
    fun m hv cs hcs hne => ⟨fromBytes_checksumMismatch m hv cs hcs hne, rfl⟩,
    ?_, ?_⟩
  · intro m hv j k hj hk
    have hcl : m.calculateChecksum.length = 4 := md5trunc4_length _
    have hflip : flipBit m.toBytes (m.packNoChecksum.length + j) k =
        m.packNoChecksum ++ (m.calculateChecksum.set j
          (m.calculateChecksum.getD j 0 ^^^ 2 ^ k)) := by
      rw [flipBit, BristlemouthMessage.toBytes,
        List.getD_append_right _ _ _ _ (by omega), Nat.add_sub_cancel_left,
        set_append_right]
    rw [hflip]
    apply fromBytes_checksumMismatch m hv _ (by rw [List.length_set, hcl])
    apply set_ne_of_getD_ne _ _ _ (by omega)
    intro hx
    have h0 := congrArg (fun z => m.calculateChecksum.getD j 0 ^^^ z) hx
    simp only [← Nat.xor_assoc, Nat.xor_self, Nat.zero_xor] at h0
    have hpos : (0 : ℕ) < 2 ^ k := pow_pos (by norm_num) k
    omega
  · intro m hv v hvne
    obtain ⟨hn, hl, htv, hver, hmt, hseq, hpay, hms0, hms1⟩ := hv
    have hhead : ∃ t : List Nat, m.toBytes = 0xBC :: t ∧ 21 ≤ t.length := by
      refine ⟨(beBytes 1 m.version ++ beBytes 2 m.message_type ++
        beBytes 4 m.sequence_number ++ beBytes 8 (pyInt (m.timestamp * 1000)).toNat ++
        sourceId6 m.source_node_id ++ beBytes 2 m.topic.toBytes.length ++
        m.topic.toBytes ++ beBytes 2 m.payload.length ++ m.payload)
          ++ m.calculateChecksum, ?_, ?_⟩
      · rw [BristlemouthMessage.toBytes, BristlemouthMessage.packNoChecksum]
        rw [show beBytes 1 0xBC = [0xBC] from rfl]
        simp [List.append_assoc]
      · simp [beBytes_length, sourceId6_length, md5trunc4_length,
          BristlemouthMessage.calculateChecksum]
        omega
    obtain ⟨t, ht, htl⟩ := hhead
    rw [ht]
    show BristlemouthMessage.fromBytes (v :: t) = .error .invalidMagic
    apply fromBytes_badMagic
    · simp only [List.length_cons]; omega
    · simpa using hvne

/-- Concrete instantiation of `C4_decode_failure_modes`. -/
theorem C4_decode_failure_modes_witness :
    BristlemouthMessage.fromBytes [0xBC] = .error .tooShort ∧
    BristlemouthMessage.fromBytes (mC3.toBytes.set 0 0) = .error .invalidMagic ∧
    BristlemouthMessage.fromBytes
        (flipBit mC3.toBytes (mC3.packNoChecksum.length + 0) 0)
      = .error .checksumMismatch :=
  ⟨(C4_decode_failure_modes.1 [0xBC] (by decide)).1,
    C4_decode_failure_modes.2.2.2.2 mC3 mC3_wireValid 0 (by decide),
    C4_decode_failure_modes.2.2.2.1 mC3 mC3_wireValid 0 0 (by decide) (by decide)⟩

/-- The 22-byte buffer showing that C4's "exactly when" is wrong: its length is
not below 22 and its magic byte is `0xBC`, yet decoding fails with a
`FormatError` (an undersized topic-length buffer, `struct.error`). -/
def c4Data : List Nat := 0xBC :: List.replicate 21 0

/-- C4 counterexample: decode has `FormatError` failures beyond "too short" and
"invalid magic": this 22-byte, correct-magic buffer fails with the
`FormatError` of an undersized buffer while reading the topic length. -/
theorem C4_counterexample :
    BristlemouthMessage.fromBytes c4Data = .error .truncated ∧
    PErr.truncated.isFormatError = true ∧
    ¬ c4Data.length < 22 ∧ c4Data.getD 0 0 = 0xBC ∧
    PErr.truncated ≠ PErr.tooShort ∧ PErr.truncated ≠ PErr.invalidMagic := by
  refine ⟨?_, rfl, by decide, rfl, by decide, by decide⟩
  rfl

/-! ## IEEE-754 (Python `float` = binary64; `struct` `'!d'`/`'!f'`)

A Python `float` is embedded by its binary64 fields.  `struct.pack('!d', x)`
writes the bit pattern big-endian; `struct.pack('!f', x)` first converts the
double to binary32 with round-to-nearest-even (raising `OverflowError` when the
finite result would overflow, modelled as `none`); `struct.unpack('!f', ...)`
widens the binary32 value back to a double exactly. -/

structure F64 where
  sign : Bool
  exp : Nat   -- 11 bits
  frac : Nat  -- 52 bits
  deriving DecidableEq, Repr

structure F32 where
  sign : Bool
  exp : Nat   -- 8 bits
  frac : Nat  -- 23 bits
  deriving DecidableEq, Repr

def F64.wf (f : F64) : Prop := f.exp < 2048 ∧ f.frac < 2 ^ 52

def F32.wf (g : F32) : Prop := g.exp < 256 ∧ g.frac < 2 ^ 23

instance (f : F64) : Decidable f.wf := by unfold F64.wf; infer_instance

instance (g : F32) : Decidable g.wf := by unfold F32.wf; infer_instance

/-- Normalized significand of a finite binary64 (subnormals use exponent 1). -/
def F64.T (f : F64) : Nat := if f.exp = 0 then f.frac else 2 ^ 52 + f.frac

/-- Effective biased exponent of a finite binary64. -/
def F64.E (f : F64) : Nat := if f.exp = 0 then 1 else f.exp

def F32.T (g : F32) : Nat := if g.exp = 0 then g.frac else 2 ^ 23 + g.frac

def F32.E (g : F32) : Nat := if g.exp = 0 then 1 else g.exp

/-- Magnitude of a finite binary64 as an exact rational. -/
def F64.mag (f : F64) : ℚ := (f.T : ℚ) * (2 : ℚ) ^ ((f.E : ℤ) - 1075)

/-- Signed value of a finite binary64. -/
def F64.sval (f : F64) : ℚ := if f.sign then -f.mag else f.mag

def F32.mag (g : F32) : ℚ := (g.T : ℚ) * (2 : ℚ) ^ ((g.E : ℤ) - 150)

def F32.sval (g : F32) : ℚ := if g.sign then -g.mag else g.mag

def F64.isNan (f : F64) : Prop := f.exp = 2047 ∧ f.frac ≠ 0

instance (f : F64) : Decidable f.isNan := by unfold F64.isNan; infer_instance

/-- Round `a / b` to the nearest integer, ties to even. -/
def rne (a b : Nat) : Nat :=
  let q := a / b
  let r := a % b
  if b < 2 * r ∨ (b = 2 * r ∧ q % 2 = 1) then q + 1 else q

/-- Double-to-single conversion, round to nearest, ties to even
(the value conversion inside `struct.pack('!f', x)`; a finite result that would
overflow binary32 raises `OverflowError`, i.e. `none`). -/
def f64ToF32 (f : F64) : Option F32 :=
  if f.exp = 2047 then
    some ⟨f.sign, 255, if f.frac = 0 then 0 else 0x400000⟩
  else if 897 ≤ f.E then
    let n := rne f.T (2 ^ 29)
    if n = 2 ^ 24 then
      if f.E - 896 + 1 ≤ 254 then some ⟨f.sign, f.E - 896 + 1, 0⟩ else none
    else
      if f.E - 896 ≤ 254 then some ⟨f.sign, f.E - 896, n - 2 ^ 23⟩ else none
  else
    let n := rne f.T (2 ^ (926 - f.E))
    if n = 2 ^ 23 then some ⟨f.sign, 1, 0⟩
    else some ⟨f.sign, 0, n⟩

/-- Exact single-to-double widening (`struct.unpack('!f', ...)` producing a
Python `float`). -/
def f32ToF64 (g : F32) : F64 :=
  if g.exp = 255 then ⟨g.sign, 2047, g.frac * 2 ^ 29⟩
  else if g.exp = 0 then
    if g.frac = 0 then ⟨g.sign, 0, 0⟩
    else ⟨g.sign, g.frac.log2 + 874, (g.frac - 2 ^ g.frac.log2) * 2 ^ (52 - g.frac.log2)⟩
  else ⟨g.sign, g.exp + 896, g.frac * 2 ^ 29⟩

/-- The 64-bit pattern of a binary64. -/
def F64.pattern (f : F64) : Nat := (cond f.sign 1 0) * 2 ^ 63 + f.exp * 2 ^ 52 + f.frac

/-- `struct.pack('!d', x)`: the pattern, big-endian. -/
def F64.toBytes (f : F64) : List Nat := beBytes 8 f.pattern

/-- `struct.unpack('!d', ...)`: fields from a big-endian 8-byte pattern. -/
def F64.ofBytes (l : List Nat) : F64 :=
  let p := beVal l
  ⟨p / 2 ^ 63 % 2 = 1, p / 2 ^ 52 % 2 ^ 11, p % 2 ^ 52⟩

def F32.pattern (g : F32) : Nat := (cond g.sign 1 0) * 2 ^ 31 + g.exp * 2 ^ 23 + g.frac

def F32.toBytes (g : F32) : List Nat := beBytes 4 g.pattern

def F32.ofBytes (l : List Nat) : F32 :=
  let p := beVal l
  ⟨p / 2 ^ 31 % 2 = 1, p / 2 ^ 23 % 2 ^ 8, p % 2 ^ 23⟩

/-- Python `f >= 0` on a double (`False` for NaN, `True` for `-0.0`),
decided on the bit pattern. -/
def F64.ge0 (f : F64) : Bool :=
  if f.isNan then false
  else if f.sign then decide (f.T = 0) else true

/-- Python `f < q` comparing a double with an exact rational. -/
def F64.ltRat (f : F64) (q : ℚ) : Bool :=
  if f.isNan then false
  else if f.exp = 2047 then f.sign
  else decide (f.sval < q)

/-- Python `f > q` comparing a double with an exact rational. -/
def F64.gtRat (f : F64) (q : ℚ) : Bool :=
  if f.isNan then false
  else if f.exp = 2047 then !f.sign
  else decide (q < f.sval)

theorem F64.toBytes_length (f : F64) : f.toBytes.length = 8 := beBytes_length 8 _

theorem F32.toBytes_length' (g : F32) : g.toBytes.length = 4 := beBytes_length 4 _

theorem F64.ofBytes_toBytes (f : F64) (h : f.wf) : F64.ofBytes f.toBytes = f := by
  obtain ⟨s, e, m⟩ := f
  obtain ⟨he, hm⟩ := h
  simp only [F64.wf] at he hm
  have hp : (F64.mk s e m).pattern < 256 ^ 8 := by
    have hh : (256 : ℕ) ^ 8 = 2 ^ 64 := by norm_num
    rw [hh, F64.pattern]
    cases s
    · simp only [cond_false]; omega
    · simp only [cond_true]; omega
  rw [F64.ofBytes, F64.toBytes, beVal_beBytes_of_lt hp, F64.pattern]
  cases s
  · simp only [cond_false]
    congr 1
    · simp only [decide_eq_false_iff_not]
      omega
    · omega
    · omega
  · simp only [cond_true]
    congr 1
    · simp only [decide_eq_true_eq]
      omega
    · omega
    · omega

theorem F32.ofBytes_toBytes' (g : F32) (h : g.wf) : F32.ofBytes g.toBytes = g := by
  obtain ⟨s, e, m⟩ := g
  obtain ⟨he, hm⟩ := h
  have he2 : e < 256 := he
  have hm2 : m < 2 ^ 23 := hm
  clear he hm
  have hp : (F32.mk s e m).pattern < 256 ^ 4 := by
    have hh : (256 : ℕ) ^ 4 = 2 ^ 32 := by norm_num
    rw [hh, F32.pattern]
    cases s
    · simp only [cond_false]; omega
    · simp only [cond_true]; omega
  rw [F32.ofBytes, F32.toBytes, beVal_beBytes_of_lt hp, F32.pattern]
  cases s
  · simp only [cond_false]
    congr 1
    · simp only [decide_eq_false_iff_not]
      omega
    · omega
    · omega
  · simp only [cond_true]
    congr 1
    · simp only [decide_eq_true_eq]
      omega
    · omega
    · omega

theorem rne_bounds (a b : Nat) (hb : 0 < b) :
    rne a b * b ≤ a + b / 2 ∧ a ≤ rne a b * b + b / 2 := by
  have hdm := Nat.div_add_mod a b
  have hr : a % b < b := Nat.mod_lt _ hb
  have hX : a / b * b = b * (a / b) := Nat.mul_comm _ _
  have hY : (a / b + 1) * b = a / b * b + b := by ring
  rw [rne]
  split
  · constructor <;> omega
  · constructor <;> omega

theorem rne_ge (a b : Nat) : a / b ≤ rne a b := by
  rw [rne]
  split <;> omega

theorem rne_le (a b : Nat) : rne a b ≤ a / b + 1 := by
  rw [rne]
  split <;> omega

theorem rne_exact (a b : Nat) (hb : 0 < b) (h : a % b = 0) : rne a b = a / b := by
  rw [rne]
  split
  · omega
  · rfl

/-- Auxiliary: move a power-of-two factor between a natural multiplicand and a
rational integer power. -/
theorem qpow_shift (a j : ℕ) (e : ℤ) :
    ((a * 2 ^ j : ℕ) : ℚ) * (2 : ℚ) ^ e = (a : ℚ) * (2 : ℚ) ^ ((j : ℤ) + e) := by
  push_cast
  rw [zpow_add₀ (by norm_num : (2 : ℚ) ≠ 0), zpow_natCast]
  ring

theorem f32ToF64_wf (g : F32) (hwf : g.wf) : (f32ToF64 g).wf := by
  obtain ⟨he, hm⟩ := hwf
  have he2 : g.exp < 256 := he
  have hm2 : g.frac < 2 ^ 23 := hm
  rw [f32ToF64]
  split
  · refine ⟨by norm_num, ?_⟩
    show g.frac * 2 ^ 29 < 2 ^ 52
    omega
  · split
    · split
      · exact ⟨by norm_num, by norm_num⟩
      · rename_i hfe hfz
        have hk := Nat.log2_self_le hfz
        have hk2 := Nat.lt_log2_self (n := g.frac)
        have hkle : g.frac.log2 ≤ 22 := by
          by_contra hgt
          have : 2 ^ 23 ≤ 2 ^ g.frac.log2 :=
            Nat.pow_le_pow_right (by norm_num) (by omega)
          omega
        constructor
        · show g.frac.log2 + 874 < 2048
          omega
        · show (g.frac - 2 ^ g.frac.log2) * 2 ^ (52 - g.frac.log2) < 2 ^ 52
          have h1 : g.frac - 2 ^ g.frac.log2 < 2 ^ g.frac.log2 := by omega
          have h2 : 2 ^ g.frac.log2 * 2 ^ (52 - g.frac.log2) = 2 ^ 52 := by
            rw [← pow_add]
            congr 1
            omega
          calc (g.frac - 2 ^ g.frac.log2) * 2 ^ (52 - g.frac.log2)
              < 2 ^ g.frac.log2 * 2 ^ (52 - g.frac.log2) :=
                (Nat.mul_lt_mul_right (Nat.pow_pos (by norm_num))).mpr h1
            _ = 2 ^ 52 := h2
    · constructor
      · show g.exp + 896 < 2048
        omega
      · show g.frac * 2 ^ 29 < 2 ^ 52
        omega

theorem f32ToF64_sign (g : F32) : (f32ToF64 g).sign = g.sign := by
  rw [f32ToF64]
  split
  · rfl
  · split
    · split <;> rfl
    · rfl

theorem f32ToF64_exp_lt (g : F32) (hwf : g.wf) (h : g.exp < 255) :
    (f32ToF64 g).exp < 2047 := by
  obtain ⟨he, hm⟩ := hwf
  have hm2 : g.frac < 2 ^ 23 := hm
  rw [f32ToF64]
  split
  · omega
  · split
    · split
      · show (0 : ℕ) < 2047
        norm_num
      · rename_i hfe hfz
        show g.frac.log2 + 874 < 2047
        have hk2 := Nat.lt_log2_self (n := g.frac)
        have hkle : g.frac.log2 ≤ 22 := by
          by_contra hgt
          have hx := Nat.log2_self_le hfz
          have : 2 ^ 23 ≤ 2 ^ g.frac.log2 :=
            Nat.pow_le_pow_right (by norm_num) (by omega)
          omega
        omega
    · show g.exp + 896 < 2047
      omega

set_option maxRecDepth 4000 in
theorem f32ToF64_mag (g : F32) (hwf : g.wf) (h : g.exp < 255) :
    (f32ToF64 g).mag = g.mag := by
  obtain ⟨he, hm⟩ := hwf
  have hm2 : g.frac < 2 ^ 23 := hm
  rw [f32ToF64]
  split
  · omega
  · split
    · rename_i hg0
      split
      · rename_i hf0
        rw [F64.mag, F32.mag]
        have h1 : (F64.mk g.sign 0 0).T = 0 := by rw [F64.T]; simp
        have h2 : g.T = 0 := by rw [F32.T]; simp [hg0, hf0]
        rw [h1, h2, Nat.cast_zero, zero_mul, zero_mul]
      · rename_i hfe hfz
        have hk := Nat.log2_self_le hfz
        have hk2 := Nat.lt_log2_self (n := g.frac)
        have hkle : g.frac.log2 ≤ 22 := by
          by_contra hgt
          have : 2 ^ 23 ≤ 2 ^ g.frac.log2 :=
            Nat.pow_le_pow_right (by norm_num) (by omega)
          omega
        rw [F64.mag, F32.mag, F64.T, F64.E, F32.T, F32.E]
        rw [if_neg (by show ¬ (g.frac.log2 + 874 = 0); omega),
          if_neg (by show ¬ (g.frac.log2 + 874 = 0); omega),
          if_pos hg0, if_pos hg0]
        show ((2 ^ 52 + (g.frac - 2 ^ g.frac.log2) * 2 ^ (52 - g.frac.log2) : ℕ) : ℚ) *
            (2 : ℚ) ^ (((g.frac.log2 + 874 : ℕ) : ℤ) - 1075)
          = ((g.frac : ℕ) : ℚ) * (2 : ℚ) ^ (((1 : ℕ) : ℤ) - 150)
        have hT : (2 : ℕ) ^ 52 + (g.frac - 2 ^ g.frac.log2) * 2 ^ (52 - g.frac.log2)
            = g.frac * 2 ^ (52 - g.frac.log2) := by
          have h2 : 2 ^ g.frac.log2 * 2 ^ (52 - g.frac.log2) = 2 ^ 52 := by
            rw [← pow_add]
            congr 1
            omega
          have h3 : 2 ^ g.frac.log2 * 2 ^ (52 - g.frac.log2) ≤
              g.frac * 2 ^ (52 - g.frac.log2) :=
            Nat.mul_le_mul_right _ hk
          rw [Nat.sub_mul]
          omega
        rw [hT, qpow_shift]
        have hexp : ((52 - g.frac.log2 : ℕ) : ℤ) +
            (((g.frac.log2 + 874 : ℕ) : ℤ) - 1075) = ((1 : ℕ) : ℤ) - 150 := by
          omega
        rw [hexp]
    · rename_i hg255 hg0
      rw [F64.mag, F32.mag, F64.T, F64.E, F32.T, F32.E]
      rw [if_neg (by show ¬ (g.exp + 896 = 0); omega),
        if_neg (by show ¬ (g.exp + 896 = 0); omega),
        if_neg hg0, if_neg hg0]
      show ((2 ^ 52 + g.frac * 2 ^ 29 : ℕ) : ℚ) *
          (2 : ℚ) ^ (((g.exp + 896 : ℕ) : ℤ) - 1075)
        = ((2 ^ 23 + g.frac : ℕ) : ℚ) * (2 : ℚ) ^ (((g.exp : ℕ) : ℤ) - 150)
      have hT : (2 : ℕ) ^ 52 + g.frac * 2 ^ 29 = (2 ^ 23 + g.frac) * 2 ^ 29 := by
        ring_nf
      rw [hT, qpow_shift]
      have hexp : ((29 : ℕ) : ℤ) + (((g.exp + 896 : ℕ) : ℤ) - 1075)
          = ((g.exp : ℕ) : ℤ) - 150 := by
        omega
      rw [hexp]

theorem f32ToF64_sval (g : F32) (hwf : g.wf) (h : g.exp < 255) :
    (f32ToF64 g).sval = g.sval := by
  rw [F64.sval, F32.sval, f32ToF64_sign, f32ToF64_mag g hwf h]

/-- Rounding a scaled significand: the value `n * 2^(drop+e)` is within half an
output ulp (`2^(drop-1+e)`) of `T * 2^e`. -/
theorem mag_err (n T drop : Nat) (e : ℤ) (hdrop : 0 < drop)
    (h1 : n * 2 ^ drop ≤ T + 2 ^ (drop - 1)) (h2 : T ≤ n * 2 ^ drop + 2 ^ (drop - 1)) :
    |(n : ℚ) * (2 : ℚ) ^ ((drop : ℤ) + e) - (T : ℚ) * (2 : ℚ) ^ e|
      ≤ (2 : ℚ) ^ (((drop : ℤ) - 1) + e) := by
  have hx : (n : ℚ) * (2 : ℚ) ^ ((drop : ℤ) + e)
      = ((n * 2 ^ drop : ℕ) : ℚ) * (2 : ℚ) ^ e := (qpow_shift n drop e).symm
  rw [hx, ← sub_mul, abs_mul, abs_of_pos (zpow_pos (show (0 : ℚ) < 2 by norm_num) e)]
  have h1q : ((n * 2 ^ drop : ℕ) : ℚ) ≤ (T : ℚ) + ((2 ^ (drop - 1) : ℕ) : ℚ) := by
    exact_mod_cast h1
  have h2q : (T : ℚ) ≤ ((n * 2 ^ drop : ℕ) : ℚ) + ((2 ^ (drop - 1) : ℕ) : ℚ) := by
    exact_mod_cast h2
  have habs : |((n * 2 ^ drop : ℕ) : ℚ) - (T : ℚ)| ≤ ((2 ^ (drop - 1) : ℕ) : ℚ) := by
    rw [abs_sub_le_iff]
    constructor
    · linarith
    · linarith
  calc |((n * 2 ^ drop : ℕ) : ℚ) - (T : ℚ)| * (2 : ℚ) ^ e
      ≤ ((2 ^ (drop - 1) : ℕ) : ℚ) * (2 : ℚ) ^ e :=
        mul_le_mul_of_nonneg_right habs (le_of_lt (zpow_pos (by norm_num) e))
    _ = ((1 * 2 ^ (drop - 1) : ℕ) : ℚ) * (2 : ℚ) ^ e := by rw [one_mul]
    _ = (1 : ℚ) * (2 : ℚ) ^ (((drop - 1 : ℕ) : ℤ) + e) := by rw [qpow_shift]; push_cast; ring_nf
    _ = (2 : ℚ) ^ (((drop : ℤ) - 1) + e) := by
        rw [one_mul]
        congr 1
        omega

set_option maxRecDepth 8000 in
/-- Narrowing a finite, in-range double to a single: the conversion succeeds and
its rounding error is at most a `2^-24` relative part plus a `2^-150` absolute
part. -/
theorem f64ToF32_finite (f : F64) (hwf : f.wf) (hfin : f.exp < 2047)
    (hE : f.E ≤ 1149) :
    ∃ g : F32, f64ToF32 f = some g ∧ g.wf ∧ g.exp < 255 ∧ g.sign = f.sign ∧
      |g.mag - f.mag| ≤ f.mag / 2 ^ 24 + 1 / 2 ^ 150 := by
  obtain ⟨hexp, hfrac⟩ := hwf
  have hT53 : f.T < 2 ^ 53 := by rw [F64.T]; split <;> omega
  have hE1 : 1 ≤ f.E := by rw [F64.E]; split <;> omega
  have hmagf : f.mag = (f.T : ℚ) * (2 : ℚ) ^ ((f.E : ℤ) - 1075) := rfl
  have hmag_nonneg : 0 ≤ f.mag := by
    rw [hmagf]
    positivity
  rw [f64ToF32, if_neg (by omega)]
  by_cases hpath : 897 ≤ f.E
  · -- normal binary32 range
    rw [if_pos hpath]
    have hTlow : 2 ^ 52 ≤ f.T := by
      rw [F64.T]
      split
      · rename_i h0
        exfalso
        rw [F64.E, if_pos h0] at hpath
        omega
      · omega
    have hnlow : 2 ^ 23 ≤ rne f.T (2 ^ 29) := by
      have h1 : 2 ^ 23 ≤ f.T / 2 ^ 29 := by omega
      exact le_trans h1 (rne_ge _ _)
    have hnhigh : rne f.T (2 ^ 29) ≤ 2 ^ 24 := by
      have h1 := rne_le f.T (2 ^ 29)
      have : f.T / 2 ^ 29 ≤ 2 ^ 24 - 1 := by omega
      omega
    have herr := rne_bounds f.T (2 ^ 29) (by norm_num)
    have hhalf : (2 : ℕ) ^ 29 / 2 = 2 ^ 28 := by norm_num
    -- both normal-path branches produce the value `n * 2^(E-1046)`
    have hkey : ∀ g : F32, g.mag = (rne f.T (2 ^ 29) : ℚ) *
        (2 : ℚ) ^ (((29 : ℕ) : ℤ) + ((f.E : ℤ) - 1075)) →
        |g.mag - f.mag| ≤ f.mag / 2 ^ 24 + 1 / 2 ^ 150 := by
      intro g hg
      rw [hg, hmagf]
      have hb := mag_err (rne f.T (2 ^ 29)) f.T 29 ((f.E : ℤ) - 1075) (by norm_num)
        (by omega) (by omega)
      refine le_trans hb ?_
      have hc : (2 : ℚ) ^ ((((29 : ℕ) : ℤ) - 1) + ((f.E : ℤ) - 1075))
          = ((2 ^ 52 : ℕ) : ℚ) * (2 : ℚ) ^ (((f.E : ℤ) - 1075) - 24) := by
        rw [show ((2 ^ 52 : ℕ) : ℚ) = (2 : ℚ) ^ (52 : ℤ) by push_cast; norm_num]
        rw [← zpow_add₀ (by norm_num : (2 : ℚ) ≠ 0)]
        congr 1
        ring
      rw [hc]
      have hd : (f.T : ℚ) * (2 : ℚ) ^ ((f.E : ℤ) - 1075) / 2 ^ 24
          = (f.T : ℚ) * (2 : ℚ) ^ (((f.E : ℤ) - 1075) - 24) := by
        rw [div_eq_iff (ne_of_gt (by positivity : (0 : ℚ) < 2 ^ 24))]
        rw [mul_assoc, ← zpow_natCast (2 : ℚ) 24,
          ← zpow_add₀ (by norm_num : (2 : ℚ) ≠ 0)]
        congr 1
        congr 1
        omega
      rw [hd]
      have hTc : ((2 ^ 52 : ℕ) : ℚ) ≤ (f.T : ℚ) := by exact_mod_cast hTlow
      have hzp : (0 : ℚ) < (2 : ℚ) ^ (((f.E : ℤ) - 1075) - 24) :=
        zpow_pos (by norm_num) _
      have hmul := mul_le_mul_of_nonneg_right hTc (le_of_lt hzp)
      have h150 : (0 : ℚ) < 1 / 2 ^ 150 := by positivity
      exact le_trans hmul (by linarith)
    by_cases h24 : rne f.T (2 ^ 29) = 2 ^ 24
    · rw [if_pos h24, if_pos (by omega)]
      refine ⟨_, rfl, ⟨by show f.E - 896 + 1 < 256; omega,
        by show (0 : ℕ) < 2 ^ 23; norm_num⟩,
        by show f.E - 896 + 1 < 255; omega, rfl, ?_⟩
      apply hkey
      rw [F32.mag, F32.T, F32.E]
      rw [if_neg (by show ¬ (f.E - 896 + 1 = 0); omega),
        if_neg (by show ¬ (f.E - 896 + 1 = 0); omega)]
      rw [h24]
      show ((2 ^ 23 + 0 : ℕ) : ℚ) * (2 : ℚ) ^ (((f.E - 896 + 1 : ℕ) : ℤ) - 150)
        = ((2 ^ 24 : ℕ) : ℚ) * (2 : ℚ) ^ (((29 : ℕ) : ℤ) + ((f.E : ℤ) - 1075))
      rw [show (2 ^ 23 + 0 : ℕ) = 1 * 2 ^ 23 by norm_num,
        show (2 ^ 24 : ℕ) = 1 * 2 ^ 24 by norm_num, qpow_shift, qpow_shift]
      congr 1
      congr 1
      omega
    · rw [if_neg h24, if_pos (by omega)]
      refine ⟨_, rfl, ⟨by show f.E - 896 < 256; omega,
        by show rne f.T (2 ^ 29) - 2 ^ 23 < 2 ^ 23; omega⟩,
        by show f.E - 896 < 255; omega, rfl, ?_⟩
      apply hkey
      rw [F32.mag, F32.T, F32.E]
      rw [if_neg (by show ¬ (f.E - 896 = 0); omega),
        if_neg (by show ¬ (f.E - 896 = 0); omega)]
      show ((2 ^ 23 + (rne f.T (2 ^ 29) - 2 ^ 23) : ℕ) : ℚ) *
          (2 : ℚ) ^ (((f.E - 896 : ℕ) : ℤ) - 150)
        = (rne f.T (2 ^ 29) : ℚ) * (2 : ℚ) ^ (((29 : ℕ) : ℤ) + ((f.E : ℤ) - 1075))
      rw [show (2 ^ 23 + (rne f.T (2 ^ 29) - 2 ^ 23) : ℕ) = rne f.T (2 ^ 29) by omega]
      congr 1
      congr 1
      omega
  · -- subnormal / zero binary32 range
    rw [if_neg hpath]
    have hEsub : f.E ≤ 896 := by omega
    have hdrop : 30 ≤ 926 - f.E := by omega
    have hdvd : (2 : ℕ) ^ 30 ≤ 2 ^ (926 - f.E) :=
      Nat.pow_le_pow_right (by norm_num) (by omega)
    have hnle : rne f.T (2 ^ (926 - f.E)) ≤ 2 ^ 23 := by
      have h1 := rne_le f.T (2 ^ (926 - f.E))
      have h2 : f.T / 2 ^ (926 - f.E) ≤ f.T / 2 ^ 30 :=
        Nat.div_le_div_left hdvd (by norm_num)
      have h3 : f.T / 2 ^ 30 < 2 ^ 23 := by omega
      omega
    have herr := rne_bounds f.T (2 ^ (926 - f.E)) (Nat.pow_pos (by norm_num))
    have hhalf : (2 : ℕ) ^ (926 - f.E) / 2 = 2 ^ (926 - f.E - 1) := by
      have hsplit : (2 : ℕ) ^ (926 - f.E) = 2 ^ (926 - f.E - 1) * 2 := by
        rw [← pow_succ]
        congr 1
        omega
      omega
    have hkey : ∀ g : F32, g.mag = (rne f.T (2 ^ (926 - f.E)) : ℚ) *
        (2 : ℚ) ^ (((926 - f.E : ℕ) : ℤ) + ((f.E : ℤ) - 1075)) →
        |g.mag - f.mag| ≤ f.mag / 2 ^ 24 + 1 / 2 ^ 150 := by
      intro g hg
      rw [hg, hmagf]
      have hb := mag_err (rne f.T (2 ^ (926 - f.E))) f.T (926 - f.E)
        ((f.E : ℤ) - 1075) (by omega) (by omega) (by omega)
      refine le_trans hb ?_
      have hc : (2 : ℚ) ^ ((((926 - f.E : ℕ) : ℤ) - 1) + ((f.E : ℤ) - 1075))
          = (2 : ℚ) ^ (-(150 : ℤ)) := by
        congr 1
        omega
      rw [hc]
      have hone : (2 : ℚ) ^ (-(150 : ℤ)) = 1 / 2 ^ 150 := by
        rw [zpow_neg, one_div]
        norm_num
      rw [hone]
      have : (0 : ℚ) ≤ f.mag / 2 ^ 24 := by positivity
      linarith
    by_cases h23 : rne f.T (2 ^ (926 - f.E)) = 2 ^ 23
    · rw [if_pos h23]
      refine ⟨_, rfl, ⟨by show (1 : ℕ) < 256; norm_num,
        by show (0 : ℕ) < 2 ^ 23; norm_num⟩, by show (1 : ℕ) < 255; norm_num, rfl, ?_⟩
      apply hkey
      rw [F32.mag, F32.T, F32.E]
      rw [if_neg (by show ¬ (1 = 0); omega), if_neg (by show ¬ (1 = 0); omega)]
      rw [h23]
      show ((2 ^ 23 + 0 : ℕ) : ℚ) * (2 : ℚ) ^ (((1 : ℕ) : ℤ) - 150)
        = ((2 ^ 23 : ℕ) : ℚ) * (2 : ℚ) ^ (((926 - f.E : ℕ) : ℤ) + ((f.E : ℤ) - 1075))
      rw [show (2 ^ 23 + 0 : ℕ) = 2 ^ 23 by norm_num]
      congr 1
      congr 1
      omega
    · rw [if_neg h23]
      refine ⟨_, rfl, ⟨by show (0 : ℕ) < 256; norm_num,
        by show rne f.T (2 ^ (926 - f.E)) < 2 ^ 23; omega⟩,
        by show (0 : ℕ) < 255; norm_num, rfl, ?_⟩
      apply hkey
      rw [F32.mag, F32.T, F32.E]
      rw [if_pos rfl, if_pos rfl]
      show (rne f.T (2 ^ (926 - f.E)) : ℚ) * (2 : ℚ) ^ (((1 : ℕ) : ℤ) - 150)
        = (rne f.T (2 ^ (926 - f.E)) : ℚ) *
          (2 : ℚ) ^ (((926 - f.E : ℕ) : ℤ) + ((f.E : ℤ) - 1075))
      congr 1
      congr 1
      omega

theorem F64.mag_nonneg (f : F64) : 0 ≤ f.mag := by
  rw [F64.mag]
  positivity

/-- Signed-value form of the narrowing error bound. -/
theorem f64ToF32_sval_err (f : F64) (hwf : f.wf) (hfin : f.exp < 2047)
    (hE : f.E ≤ 1149) :
    ∃ g : F32, f64ToF32 f = some g ∧ g.wf ∧ g.exp < 255 ∧ g.sign = f.sign ∧
      |g.sval - f.sval| ≤ |f.sval| / 2 ^ 24 + 1 / 2 ^ 150 := by
  obtain ⟨g, hsome, hgwf, hge, hgs, hbound⟩ := f64ToF32_finite f hwf hfin hE
  refine ⟨g, hsome, hgwf, hge, hgs, ?_⟩
  have habs : |f.sval| = f.mag := by
    rw [F64.sval]
    split
    · rw [abs_neg, abs_of_nonneg (F64.mag_nonneg f)]
    · rw [abs_of_nonneg (F64.mag_nonneg f)]
  rw [habs, F64.sval, F32.sval, hgs]
  split
  · rw [show -g.mag - -f.mag = -(g.mag - f.mag) by ring, abs_neg]
    exact hbound
  · exact hbound

theorem rne_zero (b : Nat) : rne 0 b = 0 := by
  rw [rne]
  simp

/-- Narrowing an exactly-widened single recovers it: binary32 values (including
zeros, subnormals, infinities and the canonical quiet NaN) are fixed points of
the double round trip. -/
theorem f64ToF32_f32ToF64 (g : F32) (hwf : g.wf)
    (hnan : g.exp = 255 → g.frac = 0 ∨ g.frac = 2 ^ 22) :
    f64ToF32 (f32ToF64 g) = some g := by
  obtain ⟨gs, ge, gf⟩ := g
  obtain ⟨he, hm⟩ := hwf
  have he2 : ge < 256 := he
  have hm2 : gf < 2 ^ 23 := hm
  have hnan2 : ge = 255 → gf = 0 ∨ gf = 2 ^ 22 := hnan
  clear he hm hnan
  rw [f32ToF64]
  simp only [show (F32.mk gs ge gf).frac = gf from rfl,
    show (F32.mk gs ge gf).exp = ge from rfl,
    show (F32.mk gs ge gf).sign = gs from rfl]
  by_cases h255 : ge = 255
  · rw [if_pos h255, f64ToF32, if_pos rfl]
    rcases hnan2 h255 with hf | hf
    · subst h255
      subst hf
      rw [if_pos (by norm_num)]
    · subst h255
      subst hf
      rw [if_neg (by norm_num)]
      rfl
  · rw [if_neg h255]
    by_cases h0 : ge = 0
    · rw [if_pos h0]
      by_cases hf0 : gf = 0
      · rw [if_pos hf0, f64ToF32]
        rw [if_neg (by norm_num)]
        rw [if_neg (by show ¬ 897 ≤ F64.E ⟨gs, 0, 0⟩; rw [F64.E]; norm_num)]
        rw [show F64.T ⟨gs, 0, 0⟩ = 0 by rw [F64.T]; norm_num]
        rw [rne_zero]
        rw [if_neg (by norm_num)]
        subst h0
        subst hf0
        rfl
      · rw [if_neg hf0, f64ToF32]
        have hk := Nat.log2_self_le hf0
        have hk2 := Nat.lt_log2_self (n := gf)
        have hkle : gf.log2 ≤ 22 := by
          by_contra hgt
          have : 2 ^ 23 ≤ 2 ^ gf.log2 :=
            Nat.pow_le_pow_right (by norm_num) (by omega)
          omega
        rw [if_neg (by show ¬ (gf.log2 + 874 = 2047); omega)]
        rw [if_neg (by
          show ¬ 897 ≤ F64.E ⟨gs, gf.log2 + 874, _⟩
          rw [F64.E, if_neg (by show ¬ (gf.log2 + 874 = 0); omega)]
          show ¬ 897 ≤ gf.log2 + 874
          omega)]
        have hE : F64.E ⟨gs, gf.log2 + 874,
            (gf - 2 ^ gf.log2) * 2 ^ (52 - gf.log2)⟩ = gf.log2 + 874 := by
          rw [F64.E, if_neg (by show ¬ (gf.log2 + 874 = 0); omega)]
        have hT : F64.T ⟨gs, gf.log2 + 874,
            (gf - 2 ^ gf.log2) * 2 ^ (52 - gf.log2)⟩
            = gf * 2 ^ (52 - gf.log2) := by
          rw [F64.T, if_neg (by show ¬ (gf.log2 + 874 = 0); omega)]
          show 2 ^ 52 + (gf - 2 ^ gf.log2) * 2 ^ (52 - gf.log2)
            = gf * 2 ^ (52 - gf.log2)
          have h2 : 2 ^ gf.log2 * 2 ^ (52 - gf.log2) = 2 ^ 52 := by
            rw [← pow_add]
            congr 1
            omega
          have h3 : 2 ^ gf.log2 * 2 ^ (52 - gf.log2) ≤ gf * 2 ^ (52 - gf.log2) :=
            Nat.mul_le_mul_right _ hk
          rw [Nat.sub_mul]
          omega
        rw [hE, hT]
        have hdrop : 926 - (gf.log2 + 874) = 52 - gf.log2 := by omega
        rw [hdrop]
        have hpos : 0 < 2 ^ (52 - gf.log2) := Nat.pow_pos (by norm_num)
        rw [rne_exact _ _ hpos (Nat.mul_mod_left _ _),
          Nat.mul_div_cancel _ hpos]
        rw [if_neg (by omega)]
        subst h0
        rfl
    · rw [if_neg h0, f64ToF32]
      rw [if_neg (by show ¬ (ge + 896 = 2047); omega)]
      have hE : F64.E ⟨gs, ge + 896, gf * 2 ^ 29⟩ = ge + 896 := by
        rw [F64.E, if_neg (by show ¬ (ge + 896 = 0); omega)]
      have hT : F64.T ⟨gs, ge + 896, gf * 2 ^ 29⟩ = (2 ^ 23 + gf) * 2 ^ 29 := by
        rw [F64.T, if_neg (by show ¬ (ge + 896 = 0); omega)]
        show 2 ^ 52 + gf * 2 ^ 29 = (2 ^ 23 + gf) * 2 ^ 29
        ring_nf
      rw [if_pos (by rw [hE]; omega)]
      rw [hE, hT]
      rw [rne_exact _ _ (by norm_num) (Nat.mul_mod_left _ _),
        Nat.mul_div_cancel _ (by norm_num)]
      rw [if_neg (by omega)]
      rw [if_pos (by omega)]
      have h1 : ge + 896 - 896 = ge := by omega
      have h2 : 2 ^ 23 + gf - 2 ^ 23 = gf := by omega
      rw [h1, h2]

/-! ## Sensor readings (`ml_sensors.bristlemouth.sensors`) -/

inductive SensorUnit where
  | celsius | fahrenheit | kelvin | decibar | pascal | bar | psu | ppt
  | metersPerSecond | centimetersPerSecond | ntu | fnu | meters | degrees
  | hertz | milligramsPerLiter | percent
  deriving DecidableEq, Repr

/-- A Python value as passed around the sensor layer and the scalar codec:
`Union[int, float, str, bytes, bool]` (`bool` is an `int` subclass and passes
the numeric `isinstance` check). -/
inductive PyVal where
  | vint (i : ℤ)
  | vfloat (f : F64)
  | vstr (s : String)
  | vbytes (b : List Nat)
  | vbool (b : Bool)
  deriving DecidableEq, Repr

/-- `float(n)` for a natural number: round to nearest, ties to even;
`OverflowError` (`none`) at `2^1024` and beyond. -/
def natToF64 (n : ℕ) : Option F64 :=
  if n = 0 then some ⟨false, 0, 0⟩
  else
    let k := n.log2
    if k ≤ 52 then some ⟨false, k + 1023, (n - 2 ^ k) * 2 ^ (52 - k)⟩
    else
      let m := rne n (2 ^ (k - 52))
      if m = 2 ^ 53 then
        if k + 1 ≤ 1023 then some ⟨false, k + 1024, 0⟩ else none
      else
        if k ≤ 1023 then some ⟨false, k + 1023, m - 2 ^ 52⟩ else none

/-- `float(i)` for a Python integer. -/
def intToF64 (i : ℤ) : Option F64 :=
  (natToF64 i.natAbs).map (fun f => ⟨decide (i < 0), f.exp, f.frac⟩)

/-- `float(value)` for a stored value (`float` of a string or bytes, i.e.
numeric-literal parsing, is a modeling boundary and yields `none`). -/
def pyNumToF64 : PyVal → Option F64
  | .vfloat f => some f
  | .vint i => intToF64 i
  | .vbool b => intToF64 (if b then 1 else 0)
  | .vstr _ => none
  | .vbytes _ => none

/-- A sensor validator's message (`validate_reading` returns `(bool, str)`). -/
inductive VMsg where
  | valid       -- "Valid"
  | nonNumeric  -- "... must be numeric"
  | belowMin    -- "... below minimum ..."
  | aboveMax    -- "... above maximum ..."
  deriving DecidableEq, Repr

/-- Sensor-layer errors; each constructor is one Python exception site. -/
inductive VErr where
  | qualityRange             -- ValueError "Quality must be between 0 and 100"
  | truncated                -- struct.error on an undersized buffer
  | invalidReading (m : VMsg)  -- ValueError "Invalid reading: {msg}"
  | directionRange           -- ValueError "Direction must be between 0 and 360 degrees"
  deriving DecidableEq, Repr

structure SensorReading where
  value : PyVal
  unit : SensorUnit
  timestamp : ℚ
  quality : Nat := 100
  sensor_id : Option String := none
  depth_m : Option F64 := none
  deriving DecidableEq, Repr

/-- `SensorReading(...)` with its `__post_init__` quality check. -/
def SensorReading.create (value : PyVal) (unit : SensorUnit) (timestamp : ℚ)
    (quality : Nat := 100) (sensor_id : Option String := none)
    (depth_m : Option F64 := none) : Except VErr SensorReading :=
  if 100 < quality then .error .qualityRange
  else .ok ⟨value, unit, timestamp, quality, sensor_id, depth_m⟩

/-- The depth sentinel `-1.0`. -/
def f64NegOne : F64 := ⟨true, 1023, 0⟩

/-- `SensorReading.to_bytes`: `struct.pack('!dQBf', value, int(ts*1000),
quality, depth)`; `none` models the `struct` exceptions (timestamp out of the
`u64` range, quality out of the byte range, depth overflowing binary32). -/
def SensorReading.toBytes (r : SensorReading) : Option (List Nat) :=
  let depth := r.depth_m.getD f64NegOne
  let ms := pyInt (r.timestamp * 1000)
  if ms < 0 ∨ (2 ^ 64 : ℤ) ≤ ms then none
  else if 256 ≤ r.quality then none
  else
    (pyNumToF64 r.value).bind fun v64 =>
      (f64ToF32 depth).map fun d32 =>
        v64.toBytes ++ beBytes 8 ms.toNat ++ beBytes 1 r.quality ++ d32.toBytes

/-- `SensorReading.from_bytes`: `struct.unpack('!dQBf', data[:21])`, then the
constructor (with its quality check); an absent depth is recognized by
`depth >= 0` being false. -/
def SensorReading.fromBytes (data : List Nat) (unit : SensorUnit) :
    Except VErr SensorReading :=
  if data.length < 21 then .error .truncated
  else
    let value := F64.ofBytes (data.take 8)
    let ms := beVal ((data.drop 8).take 8)
    let quality := (data.drop 16).getD 0 0
    let depth := f32ToF64 (F32.ofBytes ((data.drop 17).take 4))
    if 100 < quality then .error .qualityRange
    else .ok ⟨.vfloat value, unit, (ms : ℚ) / 1000, quality, none,
      if depth.ge0 then some depth else none⟩

theorem F32.mag_nonneg' (g : F32) : 0 ≤ g.mag := by
  rw [F32.mag]
  positivity

theorem F64.mag_pos (f : F64) (h : f.T ≠ 0) : 0 < f.mag := by
  rw [F64.mag]
  have h1 : 0 < (f.T : ℚ) := by exact_mod_cast Nat.pos_of_ne_zero h
  positivity

theorem F64.ge0_eq_decide (f : F64) (h : f.exp < 2047) :
    f.ge0 = decide (0 ≤ f.sval) := by
  rw [F64.ge0, if_neg (by rw [F64.isNan]; omega), F64.sval]
  cases hs : f.sign with
  | false =>
      have h0 : (0 : ℚ) ≤ f.mag := F64.mag_nonneg f
      simp [h0]
  | true =>
      by_cases hT : f.T = 0
      · have hm : f.mag = 0 := by rw [F64.mag, hT]; simp
        simp [hT, hm]
      · have hm : 0 < f.mag := F64.mag_pos f hT
        have h2 : ¬ (0 : ℚ) ≤ -f.mag := by linarith
        simp [hT, h2]

theorem drop_chunk0 {a : List Nat} {k : Nat} (h : a.length = k) (rest : List Nat) :
    (a ++ rest).drop k = rest := by
  subst h
  exact List.drop_left a rest

/-- Serialization succeeds and produces the four packed fields in order. -/
theorem SensorReading.toBytes_eq (r : SensorReading) (v64 : F64) (g : F32)
    (hv : pyNumToF64 r.value = some v64)
    (hg : f64ToF32 (r.depth_m.getD f64NegOne) = some g)
    (hms0 : 0 ≤ pyInt (r.timestamp * 1000))
    (hms1 : pyInt (r.timestamp * 1000) < 2 ^ 64)
    (hq : r.quality < 256) :
    r.toBytes = some (v64.toBytes ++ beBytes 8 (pyInt (r.timestamp * 1000)).toNat
      ++ beBytes 1 r.quality ++ g.toBytes) := by
  simp only [SensorReading.toBytes]
  rw [if_neg (by omega), if_neg (by omega), hv, Option.some_bind, hg, Option.map_some']

/-- Parsing the four packed fields recovers the reading (with the depth-sign
test applied to the widened depth). -/
theorem SensorReading.fromBytes_assemble (v : F64) (hv : v.wf) (ms q : ℕ)
    (hms : ms < 2 ^ 64) (hq : q ≤ 100) (g : F32) (hg : g.wf) (u : SensorUnit) :
    SensorReading.fromBytes
        (v.toBytes ++ beBytes 8 ms ++ beBytes 1 q ++ g.toBytes) u
      = .ok ⟨.vfloat v, u, (ms : ℚ) / 1000, q, none,
          if (f32ToF64 g).ge0 then some (f32ToF64 g) else none⟩ := by
  set data := v.toBytes ++ beBytes 8 ms ++ beBytes 1 q ++ g.toBytes with hdef
  have hdata : data = v.toBytes ++ (beBytes 8 ms ++ (beBytes 1 q ++ g.toBytes)) := by
    rw [hdef]
    simp [List.append_assoc]
  have hlen : data.length = 21 := by
    rw [hdata]
    simp [beBytes_length, F64.toBytes_length, F32.toBytes_length']
  have ht8 : data.take 8 = v.toBytes := by
    rw [hdata]
    exact List.take_left' (F64.toBytes_length v)
  have hd8 : data.drop 8 = beBytes 8 ms ++ (beBytes 1 q ++ g.toBytes) := by
    rw [hdata]
    exact drop_chunk0 (F64.toBytes_length v) _
  have ht88 : (data.drop 8).take 8 = beBytes 8 ms := by
    rw [hd8]
    exact List.take_left' (beBytes_length 8 ms)
  have hd16 : data.drop 16 = beBytes 1 q ++ g.toBytes := by
    rw [hdata, show (16 : ℕ) = 8 + 8 from rfl, drop_chunk (F64.toBytes_length v)]
    exact drop_chunk0 (beBytes_length 8 ms) _
  have hqb : (data.drop 16).getD 0 0 = q := by
    rw [hd16, beBytes_one, List.singleton_append, List.getD_cons_zero,
      Nat.mod_eq_of_lt (by omega)]
  have hd17 : (data.drop 17).take 4 = g.toBytes := by
    rw [hdata, show (17 : ℕ) = 8 + 9 from rfl, drop_chunk (F64.toBytes_length v),
      show (9 : ℕ) = 8 + 1 from rfl, drop_chunk (beBytes_length 8 ms), beBytes_one,
      List.singleton_append, List.drop_succ_cons, List.drop_zero]
    exact List.take_of_length_le (le_of_eq (F32.toBytes_length' g))
  have hmsv : beVal ((data.drop 8).take 8) = ms := by
    rw [ht88]
    exact beVal_beBytes_of_lt (by norm_num; omega)
  rw [SensorReading.fromBytes.eq_def]
  simp only [hlen, ht8, hmsv, hqb, hd17]
  rw [if_neg (by omega), F64.ofBytes_toBytes v hv, F32.ofBytes_toBytes' g hg,
    if_neg (by omega)]

theorem f64NegOne_narrow : f64ToF32 f64NegOne = some ⟨true, 127, 0⟩ := by decide

theorem f64ToF32_zero (s : Bool) : f64ToF32 ⟨s, 0, 0⟩ = some ⟨s, 0, 0⟩ := by
  simp only [f64ToF32, show (F64.mk s 0 0).exp = 0 from rfl,
    show (F64.mk s 0 0).E = 1 from rfl, show (F64.mk s 0 0).T = 0 from rfl, rne_zero]
  norm_num

theorem f64NegOne_widen_ge0 : (f32ToF64 ⟨true, 127, 0⟩).ge0 = false := by decide

/-- A nonnegative finite double narrows to a nonnegative single. -/
theorem narrow_nonneg (d : F64) (g : F32) (hgsome : f64ToF32 d = some g)
    (hdfin : d.exp < 2047) (hgsign : g.sign = d.sign) (hds : 0 ≤ d.sval) :
    0 ≤ g.sval := by
  cases hsb : d.sign with
  | false =>
      rw [F32.sval, hgsign, hsb, if_neg (by simp)]
      exact F32.mag_nonneg' g
  | true =>
      rw [F64.sval, if_pos hsb] at hds
      have hmag0 : d.mag = 0 :=
        le_antisymm (by linarith) (F64.mag_nonneg d)
      rw [F64.mag] at hmag0
      have hT0 : d.T = 0 := by
        rcases mul_eq_zero.mp hmag0 with h | h
        · exact_mod_cast h
        · exact absurd h (zpow_ne_zero _ two_ne_zero)
      have hef : d.exp = 0 ∧ d.frac = 0 := by
        rw [F64.T] at hT0
        by_cases he : d.exp = 0
        · rw [if_pos he] at hT0
          exact ⟨he, hT0⟩
        · rw [if_neg he] at hT0
          omega
      have hded : d = ⟨true, 0, 0⟩ := by
        obtain ⟨a, b, c⟩ := d
        simp only [show (F64.mk a b c).sign = a from rfl] at hsb
        simp only [show (F64.mk a b c).exp = b from rfl,
          show (F64.mk a b c).frac = c from rfl] at hef
        rw [hsb, hef.1, hef.2]
      rw [hded, f64ToF32_zero] at hgsome
      rw [(Option.some.inj hgsome).symm, F32.sval, F32.mag]
      simp [F32.T]

/-- `from_bytes` reads `data[:21]`: trailing bytes (e.g. the appended
direction float of the 25-byte current-meter payload) do not affect it. -/
theorem SensorReading.fromBytes_append (data : List Nat) (h : data.length = 21)
    (extra : List Nat) (u : SensorUnit) :
    SensorReading.fromBytes (data ++ extra) u = SensorReading.fromBytes data u := by
  have hlen : ¬ (data ++ extra).length < 21 := by
    rw [List.length_append]
    omega
  have hlen2 : ¬ data.length < 21 := by omega
  have ht8 : (data ++ extra).take 8 = data.take 8 := by
    rw [List.take_append_eq_append_take, h]
    simp
  have hd8 : (data ++ extra).drop 8 = data.drop 8 ++ extra := by
    rw [List.drop_append_eq_append_drop, h]
    simp
  have ht88 : ((data ++ extra).drop 8).take 8 = (data.drop 8).take 8 := by
    rw [hd8, List.take_append_eq_append_take, List.length_drop, h]
    simp
  have hd16 : (data ++ extra).drop 16 = data.drop 16 ++ extra := by
    rw [List.drop_append_eq_append_drop, h]
    simp
  have hq : ((data ++ extra).drop 16).getD 0 0 = (data.drop 16).getD 0 0 := by
    rw [hd16]
    exact List.getD_append _ _ _ _ (by rw [List.length_drop, h]; omega)
  have hd17 : ((data ++ extra).drop 17).take 4 = (data.drop 17).take 4 := by
    rw [List.drop_append_eq_append_drop, h, show 17 - 21 = 0 from rfl, List.drop_zero,
      List.take_append_eq_append_take, List.length_drop, h]
    simp
  rw [SensorReading.fromBytes.eq_def, SensorReading.fromBytes.eq_def]
  simp only [hlen, hlen2, ht8, ht88, hq, hd17, if_false]

set_option maxHeartbeats 1000000 in
/-- C5: a valid reading serializes to 21 bytes and parses back: the value is
recovered bit-exactly, the quality exactly; an absent depth stays absent; a
present nonnegative depth comes back present within the binary32 narrowing
error; a present depth at or below `-2^-149` comes back absent (the `-1.0`
sentinel convention erases negative depths). -/
theorem C5_reading_roundtrip (r : SensorReading) (u : SensorUnit) (f : F64)
    (hval : r.value = .vfloat f) (hfwf : f.wf) (hq : r.quality ≤ 100)
    (hms0 : 0 ≤ pyInt (r.timestamp * 1000))
    (hms1 : pyInt (r.timestamp * 1000) < 2 ^ 64)
    (hd : r.depth_m = none ∨
      ∃ d, r.depth_m = some d ∧ d.wf ∧ d.exp < 2047 ∧ d.E ≤ 1149) :
    ∃ bs, r.toBytes = some bs ∧ bs.length = 21 ∧
      ∃ r2, SensorReading.fromBytes bs u = .ok r2 ∧
        (∀ extra, SensorReading.fromBytes (bs ++ extra) u = .ok r2) ∧
        r2.value = .vfloat f ∧ r2.quality = r.quality ∧
        (r.depth_m = none → r2.depth_m = none) ∧
        (∀ d, r.depth_m = some d → d.ge0 = true →
          ∃ d2, r2.depth_m = some d2 ∧
            |d2.sval - d.sval| ≤ |d.sval| / 2 ^ 24 + 1 / 2 ^ 150) ∧
        (∀ d, r.depth_m = some d → d.sval ≤ -(1 / 2 ^ 149) →
          r2.depth_m = none) := by
  have hvf : pyNumToF64 r.value = some f := by rw [hval]; rfl
  have hlen : ∀ (v64 : F64) (g : F32),
      (v64.toBytes ++ beBytes 8 (pyInt (r.timestamp * 1000)).toNat
        ++ beBytes 1 r.quality ++ g.toBytes).length = 21 := by
    intro v64 g
    simp [beBytes_length, F64.toBytes_length, F32.toBytes_length']
  have hmsn : (pyInt (r.timestamp * 1000)).toNat < 2 ^ 64 := by omega
  rcases hd with hnone | ⟨d, hsome, hdwf, hdfin, hdE⟩
  · -- no depth: the -1.0 sentinel is packed and parses back as absent
    have hg : f64ToF32 (r.depth_m.getD f64NegOne) = some ⟨true, 127, 0⟩ := by
      rw [hnone]
      exact f64NegOne_narrow
    have hparse := SensorReading.fromBytes_assemble f hfwf
      (pyInt (r.timestamp * 1000)).toNat r.quality hmsn hq ⟨true, 127, 0⟩ (by decide) u
    refine ⟨_, SensorReading.toBytes_eq r f ⟨true, 127, 0⟩ hvf hg hms0 hms1 (by omega),
      hlen f _, _, hparse,
      fun extra => (SensorReading.fromBytes_append _ (hlen f _) extra u).trans hparse,
      rfl, rfl, ?_, ?_, ?_⟩
    · intro _
      simp only [f64NegOne_widen_ge0, Bool.false_eq_true, if_false]
    · intro d hcontra
      rw [hnone] at hcontra
      exact Option.noConfusion hcontra
    · intro d hcontra
      rw [hnone] at hcontra
      exact Option.noConfusion hcontra
  · -- present depth: narrow within the binary32 error bound
    obtain ⟨g, hgsome, hgwf, hgexp, hgsign, hgerr⟩ := f64ToF32_sval_err d hdwf hdfin hdE
    have hg : f64ToF32 (r.depth_m.getD f64NegOne) = some g := by
      rw [hsome]
      exact hgsome
    have hsv : (f32ToF64 g).sval = g.sval := f32ToF64_sval g hgwf hgexp
    have hex : (f32ToF64 g).exp < 2047 := f32ToF64_exp_lt g hgwf hgexp
    have hge0eq : (f32ToF64 g).ge0 = decide (0 ≤ g.sval) := by
      rw [F64.ge0_eq_decide _ hex, hsv]
    have hparse := SensorReading.fromBytes_assemble f hfwf
      (pyInt (r.timestamp * 1000)).toNat r.quality hmsn hq g hgwf u
    refine ⟨_, SensorReading.toBytes_eq r f g hvf hg hms0 hms1 (by omega),
      hlen f _, _, hparse,
      fun extra => (SensorReading.fromBytes_append _ (hlen f _) extra u).trans hparse,
      rfl, rfl, ?_, ?_, ?_⟩
    · intro hcontra
      rw [hsome] at hcontra
      exact Option.noConfusion hcontra
    · intro d2 hd2 hge
      have hdd : d2 = d := by
        rw [hsome] at hd2
        exact (Option.some.inj hd2).symm
      subst hdd
      rw [F64.ge0_eq_decide d2 hdfin] at hge
      have hds : 0 ≤ d2.sval := of_decide_eq_true hge
      have h0g : 0 ≤ g.sval := narrow_nonneg d2 g hgsome hdfin hgsign hds
      have hcond : (f32ToF64 g).ge0 = true := by
        rw [hge0eq]
        exact decide_eq_true h0g
      refine ⟨f32ToF64 g, by simp only [hcond, if_true], ?_⟩
      rw [hsv]
      exact hgerr
    · intro d2 hd2 hneg
      have hdd : d2 = d := by
        rw [hsome] at hd2
        exact (Option.some.inj hd2).symm
      subst hdd
      have hp149 : (0 : ℚ) < 1 / 2 ^ 149 := by positivity
      have habs : |d2.sval| = -d2.sval := abs_of_nonpos (by linarith)
      have hub := (abs_le.mp hgerr).2
      rw [habs] at hub
      have h24 : ((2 : ℚ) ^ 24) = 16777216 := by norm_num
      rw [h24] at hub
      have hgneg : g.sval < 0 := by linarith
      have hcond : (f32ToF64 g).ge0 = false := by
        rw [hge0eq]
        exact decide_eq_false (not_le.mpr hgneg)
      simp only [hcond, Bool.false_eq_true, if_false]

def c5Value : F64 := ⟨false, 1026, 0⟩

def c5Depth : F64 := ⟨false, 1023, 2 ^ 51⟩

def c5wReading : SensorReading := ⟨.vfloat c5Value, .celsius, 5, 90, none, some c5Depth⟩

theorem c5w_pyInt : pyInt (c5wReading.timestamp * 1000) = 5000 := by
  have h : c5wReading.timestamp * 1000 = ((5000 : ℕ) : ℚ) := by
    norm_num [c5wReading]
  rw [h, pyInt_natCast]
  rfl

theorem C5_reading_roundtrip_witness :
    ∃ bs, c5wReading.toBytes = some bs ∧ bs.length = 21 ∧
      ∃ r2, SensorReading.fromBytes bs SensorUnit.celsius = .ok r2 ∧
        (∀ extra, SensorReading.fromBytes (bs ++ extra) SensorUnit.celsius = .ok r2) ∧
        r2.value = .vfloat c5Value ∧ r2.quality = c5wReading.quality ∧
        (c5wReading.depth_m = none → r2.depth_m = none) ∧
        (∀ d, c5wReading.depth_m = some d → d.ge0 = true →
          ∃ d2, r2.depth_m = some d2 ∧
            |d2.sval - d.sval| ≤ |d.sval| / 2 ^ 24 + 1 / 2 ^ 150) ∧
        (∀ d, c5wReading.depth_m = some d → d.sval ≤ -(1 / 2 ^ 149) →
          r2.depth_m = none) :=
  C5_reading_roundtrip c5wReading SensorUnit.celsius c5Value rfl (by decide)
    (by decide) (by rw [c5w_pyInt]; decide) (by rw [c5w_pyInt]; decide)
    (Or.inr ⟨c5Depth, rfl, by decide, by decide, by decide⟩)

def c5cReading : SensorReading :=
  ⟨.vfloat c5Value, .meters, 0, 100, none, some ⟨true, 1024, 0⟩⟩

/-- The reading's present depth of -2.0 survives encoding but decodes as an
absent depth, refuting exact depth recovery. -/
theorem C5_counterexample :
    c5cReading.depth_m ≠ none ∧
    ∃ bs, c5cReading.toBytes = some bs ∧
      ∃ r2, SensorReading.fromBytes bs SensorUnit.meters = .ok r2 ∧
        r2.depth_m = none := by
  refine ⟨by decide, ?_⟩
  have hts : pyInt (c5cReading.timestamp * 1000) = 0 := by
    have h : c5cReading.timestamp * 1000 = ((0 : ℕ) : ℚ) := by
      norm_num [c5cReading]
    rw [h, pyInt_natCast]
    rfl
  have hg : f64ToF32 (c5cReading.depth_m.getD f64NegOne) = some ⟨true, 128, 0⟩ := by
    decide
  have hbs := SensorReading.toBytes_eq c5cReading c5Value ⟨true, 128, 0⟩ rfl hg
    (by rw [hts]) (by rw [hts]; decide) (by decide)
  refine ⟨_, hbs, _,
    SensorReading.fromBytes_assemble c5Value (by decide) _ _ (by rw [hts]; decide)
      (by decide) ⟨true, 128, 0⟩ (by decide) SensorUnit.meters, ?_⟩
  have hge : (f32ToF64 ⟨true, 128, 0⟩).ge0 = false := by decide
  simp only [hge, Bool.false_eq_true, if_false]

/-! ## Scalar value codec (`encode_sensor_value` / `decode_sensor_value`) -/

/-- Python `float(value)`. `float` of a string or bytes (numeric-literal
parsing) is a modeling boundary. -/
def pyFloat : PyVal → Except PErr F64
  | .vfloat f => .ok f
  | .vint i =>
      match intToF64 i with
      | some f => .ok f
      | none => .error .overflow
  | .vbool b =>
      match intToF64 (if b then 1 else 0) with
      | some f => .ok f
      | none => .error .overflow
  | .vstr _ => .error .reprUnmodeled
  | .vbytes _ => .error .reprUnmodeled

/-- Python `int(value)` (truncation toward zero for floats; `int` of inf/NaN
raises). `int` of a string or bytes is a modeling boundary. -/
def pyIntOf : PyVal → Except PErr ℤ
  | .vint i => .ok i
  | .vbool b => .ok (if b then 1 else 0)
  | .vfloat f => if f.exp = 2047 then .error .overflow else .ok (pyInt f.sval)
  | .vstr _ => .error .reprUnmodeled
  | .vbytes _ => .error .reprUnmodeled

/-- Python `str(value)`. `str` of a float or bytes (repr strings) is a
modeling boundary. -/
def pyStrOf : PyVal → Except PErr String
  | .vstr s => .ok s
  | .vint i => .ok (toString i)
  | .vbool b => .ok (if b then "True" else "False")
  | .vfloat _ => .error .reprUnmodeled
  | .vbytes _ => .error .reprUnmodeled

/-- Python `bool(value)` (truthiness). -/
def pyBool : PyVal → Bool
  | .vbool b => b
  | .vint i => decide (i ≠ 0)
  | .vfloat f => decide (f.T ≠ 0)
  | .vstr s => decide (s ≠ "")
  | .vbytes b => decide (b ≠ [])

/-- `struct.unpack` of a `w`-byte signed big-endian field. -/
def toSigned (w : Nat) (n : Nat) : ℤ :=
  if n < 2 ^ (8 * w - 1) then (n : ℤ) else (n : ℤ) - 2 ^ (8 * w)

/-- `struct.pack` of a `w`-byte integer field with the format's range check
(two's complement for negatives). -/
def packIntBytes (w : Nat) (lo hi i : ℤ) : Except PErr (List Nat) :=
  if i < lo ∨ hi < i then .error .rangeError
  else .ok (beBytes w (i % (2 ^ (8 * w))).toNat)

/-- `struct.unpack(fmt, data[:k])`: `struct.error` when fewer than `k` bytes
remain after the silent slice truncation. -/
def takeExact (data : List Nat) (k : Nat) : Except PErr (List Nat) :=
  if data.length < k then .error .truncated else .ok (data.take k)

/-- `protocol.encode_sensor_value`, with `DataType` members compared by their
`IntEnum` value (FLOAT32 = 1 ... BOOL = 13). -/
def encode_sensor_value (value : PyVal) (data_type : Nat) : Except PErr (List Nat) :=
  if data_type = 1 then
    (pyFloat value).bind fun f =>
      match f64ToF32 f with
      | some g => .ok g.toBytes
      | none => .error .overflow
  else if data_type = 2 then
    (pyFloat value).map F64.toBytes
  else if data_type = 3 then
    (pyIntOf value).bind (packIntBytes 1 (-128) 127)
  else if data_type = 4 then
    (pyIntOf value).bind (packIntBytes 2 (-(2 ^ 15)) (2 ^ 15 - 1))
  else if data_type = 5 then
    (pyIntOf value).bind (packIntBytes 4 (-(2 ^ 31)) (2 ^ 31 - 1))
  else if data_type = 6 then
    (pyIntOf value).bind (packIntBytes 8 (-(2 ^ 63)) (2 ^ 63 - 1))
  else if data_type = 7 then
    (pyIntOf value).bind (packIntBytes 1 0 255)
  else if data_type = 8 then
    (pyIntOf value).bind (packIntBytes 2 0 (2 ^ 16 - 1))
  else if data_type = 9 then
    (pyIntOf value).bind (packIntBytes 4 0 (2 ^ 32 - 1))
  else if data_type = 10 then
    (pyIntOf value).bind (packIntBytes 8 0 (2 ^ 64 - 1))
  else if data_type = 11 then
    (pyStrOf value).bind fun s =>
      let encoded := utf8Encode s
      if 2 ^ 16 ≤ encoded.length then .error .rangeError
      else .ok (beBytes 2 encoded.length ++ encoded)
  else if data_type = 12 then
    match value with
    | .vbytes b =>
        if 2 ^ 16 ≤ b.length then .error .rangeError
        else .ok (beBytes 2 b.length ++ b)
    | _ => .error .bytesExpected
  else if data_type = 13 then
    .ok (beBytes 1 (cond (pyBool value) 1 0))
  else .error .unknownDataType

/-- `protocol.decode_sensor_value`. The length-prefixed kinds slice
`data[2:2+length]`, which silently truncates, and still report
`2 + length` bytes consumed. -/
def decode_sensor_value (data : List Nat) (data_type : Nat) :
    Except PErr (PyVal × Nat) :=
  if data_type = 1 then
    (takeExact data 4).map fun b => (.vfloat (f32ToF64 (F32.ofBytes b)), 4)
  else if data_type = 2 then
    (takeExact data 8).map fun b => (.vfloat (F64.ofBytes b), 8)
  else if data_type = 3 then
    (takeExact data 1).map fun b => (.vint (toSigned 1 (beVal b)), 1)
  else if data_type = 4 then
    (takeExact data 2).map fun b => (.vint (toSigned 2 (beVal b)), 2)
  else if data_type = 5 then
    (takeExact data 4).map fun b => (.vint (toSigned 4 (beVal b)), 4)
  else if data_type = 6 then
    (takeExact data 8).map fun b => (.vint (toSigned 8 (beVal b)), 8)
  else if data_type = 7 then
    (takeExact data 1).map fun b => (.vint (beVal b), 1)
  else if data_type = 8 then
    (takeExact data 2).map fun b => (.vint (beVal b), 2)
  else if data_type = 9 then
    (takeExact data 4).map fun b => (.vint (beVal b), 4)
  else if data_type = 10 then
    (takeExact data 8).map fun b => (.vint (beVal b), 8)
  else if data_type = 11 then
    (takeExact data 2).bind fun b =>
      match utf8Decode ((data.drop 2).take (beVal b)) with
      | some s => .ok (.vstr s, 2 + beVal b)
      | none => .error .badUtf8
  else if data_type = 12 then
    (takeExact data 2).map fun b =>
      (.vbytes ((data.drop 2).take (beVal b)), 2 + beVal b)
  else if data_type = 13 then
    (takeExact data 1).map fun b => (.vbool (decide (beVal b ≠ 0)), 1)
  else .error .unknownDataType

theorem takeExact_all {a : List Nat} {k : Nat} (h : a.length = k) :
    takeExact a k = .ok a := by
  rw [takeExact, if_neg (by omega), ← h, List.take_length]

theorem takeExact_prefix {a : List Nat} {k : Nat} (h : a.length = k)
    (rest : List Nat) :
    takeExact (a ++ rest) k = .ok a := by
  rw [takeExact, if_neg (by rw [List.length_append]; omega), List.take_left' h]

theorem emod_toNat_lt (w : Nat) (i : ℤ) :
    (i % (2 ^ (8 * w))).toNat < 256 ^ w := by
  have hpos : (0 : ℤ) < 2 ^ (8 * w) := by positivity
  have h0 := Int.emod_nonneg i (ne_of_gt hpos)
  have hlt := Int.emod_lt_of_pos i hpos
  have hc : ((256 ^ w : ℕ) : ℤ) = 2 ^ (8 * w) := by
    push_cast
    rw [show (256 : ℤ) = 2 ^ 8 from by norm_num, ← pow_mul]
  generalize hA : (2 : ℤ) ^ (8 * w) = A at h0 hlt hc ⊢
  generalize hB : (256 : ℕ) ^ w = B at hc ⊢
  generalize hx : i % A = x at h0 hlt ⊢
  omega

theorem toSigned_emod (w : Nat) (hw : 0 < w) (i : ℤ)
    (h1 : -(2 ^ (8 * w - 1)) ≤ i) (h2 : i < 2 ^ (8 * w - 1)) :
    toSigned w (i % (2 ^ (8 * w))).toNat = i := by
  have hN2 : (2 : ℤ) ^ (8 * w) = 2 * 2 ^ (8 * w - 1) := by
    rw [← pow_succ']
    congr 1
    omega
  have hH : (0 : ℤ) < 2 ^ (8 * w - 1) := by positivity
  have hHc : ((2 ^ (8 * w - 1) : ℕ) : ℤ) = 2 ^ (8 * w - 1) := by push_cast; rfl
  have hik : i % (2 ^ (8 * w)) = if 0 ≤ i then i else i + 2 ^ (8 * w) := by
    split
    · exact Int.emod_eq_of_lt (by assumption) (by linarith)
    · have hsh : (i + 2 ^ (8 * w)) % (2 ^ (8 * w)) = i % (2 ^ (8 * w)) := by
        conv_lhs => rw [show i + (2 : ℤ) ^ (8 * w) = i + 2 ^ (8 * w) * 1 from by ring]
        exact Int.add_mul_emod_self_left i (2 ^ (8 * w)) 1
      rw [← hsh]
      have hneg : ¬ 0 ≤ i := by assumption
      exact Int.emod_eq_of_lt (by push_neg at hneg; linarith) (by push_neg at hneg; linarith)
  rw [toSigned, hik]
  by_cases hi : 0 ≤ i
  · rw [if_pos hi]
    have hcond : i.toNat < 2 ^ (8 * w - 1) := by
      have h3 : (i.toNat : ℤ) < ((2 ^ (8 * w - 1) : ℕ) : ℤ) := by
        rw [Int.toNat_of_nonneg hi, hHc]
        exact h2
      exact_mod_cast h3
    rw [if_pos hcond, Int.toNat_of_nonneg hi]
  · rw [if_neg hi]
    push_neg at hi
    have h0N : 0 ≤ i + 2 ^ (8 * w) := by linarith
    have hcond : ¬ (i + 2 ^ (8 * w)).toNat < 2 ^ (8 * w - 1) := by
      have h3 : ((2 ^ (8 * w - 1) : ℕ) : ℤ) ≤ ((i + 2 ^ (8 * w)).toNat : ℤ) := by
        rw [Int.toNat_of_nonneg h0N, hHc]
        linarith
      exact not_lt.mpr (by exact_mod_cast h3)
    rw [if_neg hcond, Int.toNat_of_nonneg h0N]
    ring

theorem beVal_beBytes_emod (w : Nat) (i : ℤ) :
    beVal (beBytes w (i % (2 ^ (8 * w))).toNat) = (i % (2 ^ (8 * w))).toNat :=
  beVal_beBytes_of_lt (emod_toNat_lt w i)

/-- Shared round trip for the signed integer kinds. -/
theorem intKind_rt (w k : Nat) (hw : 0 < w) (lo hi i : ℤ)
    (henc : encode_sensor_value (.vint i) k = packIntBytes w lo hi i)
    (hdec : ∀ bs, decode_sensor_value bs k = (takeExact bs w).map
      (fun b => (.vint (toSigned w (beVal b)), w)))
    (hrange : ¬ (i < lo ∨ hi < i))
    (h1 : -(2 ^ (8 * w - 1)) ≤ i) (h2 : i < 2 ^ (8 * w - 1)) :
    ∃ bs, encode_sensor_value (.vint i) k = .ok bs ∧ bs.length = w ∧
      decode_sensor_value bs k = .ok (.vint i, w) := by
  rw [henc, packIntBytes, if_neg hrange]
  refine ⟨_, rfl, beBytes_length w _, ?_⟩
  rw [hdec, takeExact_all (beBytes_length w _)]
  show Except.ok (PyVal.vint (toSigned w (beVal
    (beBytes w (i % (2 ^ (8 * w))).toNat))), w) = _
  rw [beVal_beBytes_emod, toSigned_emod w hw i h1 h2]

/-- Shared round trip for the unsigned integer kinds. -/
theorem uintKind_rt (w k : Nat) (hi i : ℤ)
    (henc : encode_sensor_value (.vint i) k = packIntBytes w 0 hi i)
    (hdec : ∀ bs, decode_sensor_value bs k = (takeExact bs w).map
      (fun b => (.vint (beVal b), w)))
    (hrange : ¬ (i < 0 ∨ hi < i))
    (hlt : i < 2 ^ (8 * w)) :
    ∃ bs, encode_sensor_value (.vint i) k = .ok bs ∧ bs.length = w ∧
      decode_sensor_value bs k = .ok (.vint i, w) := by
  rw [henc, packIntBytes, if_neg hrange]
  refine ⟨_, rfl, beBytes_length w _, ?_⟩
  rw [hdec, takeExact_all (beBytes_length w _)]
  show Except.ok (PyVal.vint (beVal
    (beBytes w (i % (2 ^ (8 * w))).toNat)), w) = _
  rw [beVal_beBytes_emod]
  have h0 : 0 ≤ i := by omega
  rw [Int.emod_eq_of_lt h0 hlt, Int.toNat_of_nonneg h0]

set_option maxHeartbeats 1000000 in
/-- C7: decode is a left inverse of encode on each supported kind for
representable values — bit-exact for binary32-representable floats, float64,
all integer kinds, strings, byte blocks and booleans, and within the binary32
narrowing error (well under the stated relative 1e-6) for any in-range finite
double under FLOAT32 — with the byte widths fixed per kind (length-prefixed
kinds use 2 + content length); an unrecognized kind fails with a FormatError
on both sides. Encode is, however, not total on valid kinds (out-of-range
integers raise struct.error), and decode fails on undersized buffers. -/
theorem C7_scalar_roundtrip :
    (∀ g : F32, g.wf → g.exp < 255 →
      encode_sensor_value (.vfloat (f32ToF64 g)) 1 = .ok g.toBytes ∧
      g.toBytes.length = 4 ∧
      decode_sensor_value g.toBytes 1 = .ok (.vfloat (f32ToF64 g), 4)) ∧
    (∀ f : F64, f.wf → f.exp < 2047 → f.E ≤ 1149 →
      ∃ bs f2, encode_sensor_value (.vfloat f) 1 = .ok bs ∧ bs.length = 4 ∧
        decode_sensor_value bs 1 = .ok (.vfloat f2, 4) ∧
        |f2.sval - f.sval| ≤ |f.sval| * (1 / 1000000) + 1 / 2 ^ 150) ∧
    (∀ f : F64, f.wf →
      encode_sensor_value (.vfloat f) 2 = .ok f.toBytes ∧
      f.toBytes.length = 8 ∧
      decode_sensor_value f.toBytes 2 = .ok (.vfloat f, 8)) ∧
    (∀ i : ℤ, -(2 ^ 7) ≤ i → i < 2 ^ 7 →
      ∃ bs, encode_sensor_value (.vint i) 3 = .ok bs ∧ bs.length = 1 ∧
        decode_sensor_value bs 3 = .ok (.vint i, 1)) ∧
    (∀ i : ℤ, -(2 ^ 15) ≤ i → i < 2 ^ 15 →
      ∃ bs, encode_sensor_value (.vint i) 4 = .ok bs ∧ bs.length = 2 ∧
        decode_sensor_value bs 4 = .ok (.vint i, 2)) ∧
    (∀ i : ℤ, -(2 ^ 31) ≤ i → i < 2 ^ 31 →
      ∃ bs, encode_sensor_value (.vint i) 5 = .ok bs ∧ bs.length = 4 ∧
        decode_sensor_value bs 5 = .ok (.vint i, 4)) ∧
    (∀ i : ℤ, -(2 ^ 63) ≤ i → i < 2 ^ 63 →
      ∃ bs, encode_sensor_value (.vint i) 6 = .ok bs ∧ bs.length = 8 ∧
        decode_sensor_value bs 6 = .ok (.vint i, 8)) ∧
    (∀ i : ℤ, 0 ≤ i → i < 2 ^ 8 →
      ∃ bs, encode_sensor_value (.vint i) 7 = .ok bs ∧ bs.length = 1 ∧
        decode_sensor_value bs 7 = .ok (.vint i, 1)) ∧
    (∀ i : ℤ, 0 ≤ i → i < 2 ^ 16 →
      ∃ bs, encode_sensor_value (.vint i) 8 = .ok bs ∧ bs.length = 2 ∧
        decode_sensor_value bs 8 = .ok (.vint i, 2)) ∧
    (∀ i : ℤ, 0 ≤ i → i < 2 ^ 32 →
      ∃ bs, encode_sensor_value (.vint i) 9 = .ok bs ∧ bs.length = 4 ∧
        decode_sensor_value bs 9 = .ok (.vint i, 4)) ∧
    (∀ i : ℤ, 0 ≤ i → i < 2 ^ 64 →
      ∃ bs, encode_sensor_value (.vint i) 10 = .ok bs ∧ bs.length = 8 ∧
        decode_sensor_value bs 10 = .ok (.vint i, 8)) ∧
    (∀ s : String, (utf8Encode s).length < 2 ^ 16 →
      ∃ bs, encode_sensor_value (.vstr s) 11 = .ok bs ∧
        bs.length = 2 + (utf8Encode s).length ∧
        decode_sensor_value bs 11 = .ok (.vstr s, 2 + (utf8Encode s).length)) ∧
    (∀ b : List Nat, b.length < 2 ^ 16 →
      ∃ bs, encode_sensor_value (.vbytes b) 12 = .ok bs ∧
        bs.length = 2 + b.length ∧
        decode_sensor_value bs 12 = .ok (.vbytes b, 2 + b.length)) ∧
    (∀ b : Bool,
      ∃ bs, encode_sensor_value (.vbool b) 13 = .ok bs ∧ bs.length = 1 ∧
        decode_sensor_value bs 13 = .ok (.vbool b, 1)) ∧
    (∀ k : Nat, ¬ (1 ≤ k ∧ k ≤ 13) →
      (∀ v, encode_sensor_value v k = .error .unknownDataType) ∧
      (∀ data, decode_sensor_value data k = .error .unknownDataType) ∧
      PErr.unknownDataType.isFormatError = true) := by
  refine ⟨?_, ?_, ?_, ?_, ?_, ?_, ?_, ?_, ?_, ?_, ?_, ?_, ?_, ?_, ?_⟩
  · -- FLOAT32, binary32-representable: exact
    intro g hwf hexp
    have hng : f64ToF32 (f32ToF64 g) = some g :=
      f64ToF32_f32ToF64 g hwf (fun h => absurd h (by omega))
    refine ⟨?_, F32.toBytes_length' g, ?_⟩
    · simp [encode_sensor_value, pyFloat, Except.bind, hng]
    · simp [decode_sensor_value, takeExact_all (F32.toBytes_length' g),
        Except.map, F32.ofBytes_toBytes' g hwf]
  · -- FLOAT32, any in-range finite double: narrowing error bound
    intro f hwf hfin hE
    obtain ⟨g, hgsome, hgwf, hgexp, hgsign, hgerr⟩ := f64ToF32_sval_err f hwf hfin hE
    refine ⟨g.toBytes, f32ToF64 g, ?_, F32.toBytes_length' g, ?_, ?_⟩
    · simp [encode_sensor_value, pyFloat, Except.bind, hgsome]
    · simp [decode_sensor_value, takeExact_all (F32.toBytes_length' g),
        Except.map, F32.ofBytes_toBytes' g hgwf]
    · rw [f32ToF64_sval g hgwf hgexp]
      have hstep : |f.sval| / 2 ^ 24 ≤ |f.sval| * (1 / 1000000) := by
        rw [div_eq_mul_inv, ← one_div]
        exact mul_le_mul_of_nonneg_left (by norm_num) (abs_nonneg _)
      linarith
  · -- FLOAT64: exact
    intro f hwf
    refine ⟨rfl, F64.toBytes_length f, ?_⟩
    simp [decode_sensor_value, takeExact_all (F64.toBytes_length f),
      Except.map, F64.ofBytes_toBytes f hwf]
  · intro i h1 h2
    exact intKind_rt 1 3 (by norm_num) (-128) 127 i rfl (fun bs => rfl)
      (by omega) h1 h2
  · intro i h1 h2
    exact intKind_rt 2 4 (by norm_num) (-(2 ^ 15)) (2 ^ 15 - 1) i rfl (fun bs => rfl)
      (by omega) h1 h2
  · intro i h1 h2
    exact intKind_rt 4 5 (by norm_num) (-(2 ^ 31)) (2 ^ 31 - 1) i rfl (fun bs => rfl)
      (by omega) h1 h2
  · intro i h1 h2
    exact intKind_rt 8 6 (by norm_num) (-(2 ^ 63)) (2 ^ 63 - 1) i rfl (fun bs => rfl)
      (by omega) h1 h2
  · intro i h1 h2
    exact uintKind_rt 1 7 255 i rfl (fun bs => rfl) (by omega) h2
  · intro i h1 h2
    exact uintKind_rt 2 8 (2 ^ 16 - 1) i rfl (fun bs => rfl) (by omega) h2
  · intro i h1 h2
    exact uintKind_rt 4 9 (2 ^ 32 - 1) i rfl (fun bs => rfl) (by omega) h2
  · intro i h1 h2
    exact uintKind_rt 8 10 (2 ^ 64 - 1) i rfl (fun bs => rfl) (by omega) h2
  · -- STRING: length-prefixed UTF-8, exact
    intro s hlen
    have hbv : beVal (beBytes 2 (utf8Encode s).length) = (utf8Encode s).length :=
      beVal_beBytes_of_lt (by norm_num; omega)
    have hdrop : (beBytes 2 (utf8Encode s).length ++ utf8Encode s).drop 2
        = utf8Encode s := drop_chunk0 (beBytes_length 2 _) _
    have hc : ¬ 2 ^ 16 ≤ (utf8Encode s).length := by omega
    refine ⟨beBytes 2 (utf8Encode s).length ++ utf8Encode s, ?_, ?_, ?_⟩
    · simp [encode_sensor_value, pyStrOf, Except.bind, hc]
      omega
    · simp [beBytes_length]
    · simp [decode_sensor_value,
        takeExact_prefix (beBytes_length 2 ((utf8Encode s).length)) (utf8Encode s),
        Except.bind, hbv, hdrop, List.take_length, utf8Decode_encode]
  · -- BYTES: length-prefixed, exact
    intro b hlen
    have hbv : beVal (beBytes 2 b.length) = b.length :=
      beVal_beBytes_of_lt (by norm_num; omega)
    have hdrop : (beBytes 2 b.length ++ b).drop 2 = b :=
      drop_chunk0 (beBytes_length 2 _) _
    have hc : ¬ 2 ^ 16 ≤ b.length := by omega
    refine ⟨beBytes 2 b.length ++ b, ?_, ?_, ?_⟩
    · simp [encode_sensor_value, hc]
      omega
    · simp [beBytes_length]
    · simp [decode_sensor_value,
        takeExact_prefix (beBytes_length 2 b.length) b,
        Except.map, hbv, hdrop, List.take_length]
  · -- BOOL
    intro b
    cases b
    · exact ⟨_, rfl, rfl, rfl⟩
    · exact ⟨_, rfl, rfl, rfl⟩
  · -- unrecognized kind
    intro k hk
    refine ⟨fun v => ?_, fun data => ?_, rfl⟩
    · simp only [encode_sensor_value]
      rw [if_neg (show ¬ k = 1 from by omega), if_neg (show ¬ k = 2 from by omega),
        if_neg (show ¬ k = 3 from by omega), if_neg (show ¬ k = 4 from by omega),
        if_neg (show ¬ k = 5 from by omega), if_neg (show ¬ k = 6 from by omega),
        if_neg (show ¬ k = 7 from by omega), if_neg (show ¬ k = 8 from by omega),
        if_neg (show ¬ k = 9 from by omega), if_neg (show ¬ k = 10 from by omega),
        if_neg (show ¬ k = 11 from by omega), if_neg (show ¬ k = 12 from by omega),
        if_neg (show ¬ k = 13 from by omega)]
    · simp only [decode_sensor_value]
      rw [if_neg (show ¬ k = 1 from by omega), if_neg (show ¬ k = 2 from by omega),
        if_neg (show ¬ k = 3 from by omega), if_neg (show ¬ k = 4 from by omega),
        if_neg (show ¬ k = 5 from by omega), if_neg (show ¬ k = 6 from by omega),
        if_neg (show ¬ k = 7 from by omega), if_neg (show ¬ k = 8 from by omega),
        if_neg (show ¬ k = 9 from by omega), if_neg (show ¬ k = 10 from by omega),
        if_neg (show ¬ k = 11 from by omega), if_neg (show ¬ k = 12 from by omega),
        if_neg (show ¬ k = 13 from by omega)]

theorem C7_scalar_roundtrip_witness :
    ∃ bs, encode_sensor_value (.vint (-300)) 4 = .ok bs ∧ bs.length = 2 ∧
      decode_sensor_value bs 4 = .ok (.vint (-300), 2) :=
  C7_scalar_roundtrip.2.2.2.2.1 (-300) (by decide) (by decide)

/-- Encode raises struct.error for an out-of-range value of a valid kind
(UINT8 with 300), and decode raises struct.error on an empty buffer for a
valid kind (UINT32): neither is total over valid kinds. -/
theorem C7_counterexample :
    encode_sensor_value (.vint 300) 7 = .error .rangeError ∧
    decode_sensor_value [] 9 = .error .truncated :=
  ⟨rfl, rfl⟩

/-! ## Sensors (`BaseSensor.create_reading` and subclasses) -/

/-- Python `a < b` on doubles (IEEE: false whenever either side is NaN). -/
def F64.lt (a b : F64) : Bool :=
  if a.isNan ∨ b.isNan then false
  else if a.exp = 2047 then
    if a.sign then decide (¬ (b.exp = 2047 ∧ b.sign = true)) else false
  else if b.exp = 2047 then !b.sign
  else decide (a.sval < b.sval)

/-- Python `a <= b` on doubles. -/
def F64.le (a b : F64) : Bool :=
  if a.isNan ∨ b.isNan then false
  else if a.exp = 2047 then
    if a.sign then true else decide (b.exp = 2047 ∧ b.sign = false)
  else if b.exp = 2047 then !b.sign
  else decide (a.sval ≤ b.sval)

/-- Python `i < m` comparing an exact int with a double. -/
def intLtF (i : ℤ) (m : F64) : Bool :=
  if m.isNan then false
  else if m.exp = 2047 then !m.sign
  else decide ((i : ℚ) < m.sval)

/-- Python `i > m` comparing an exact int with a double. -/
def intGtF (i : ℤ) (m : F64) : Bool :=
  if m.isNan then false
  else if m.exp = 2047 then m.sign
  else decide (m.sval < (i : ℚ))

/-- Python `value < bound` for a numeric value (non-numeric values never reach
the comparisons: `validate_reading` returns first). -/
def pyLtF : PyVal → F64 → Bool
  | .vfloat f, m => F64.lt f m
  | .vint i, m => intLtF i m
  | .vbool b, m => intLtF (if b then 1 else 0) m
  | _, _ => false

/-- Python `value > bound` for a numeric value. -/
def pyGtF : PyVal → F64 → Bool
  | .vfloat f, m => F64.lt m f
  | .vint i, m => intGtF i m
  | .vbool b, m => intGtF (if b then 1 else 0) m
  | _, _ => false

/-- The mutable state of a `BaseSensor` subclass (the validators of all four
concrete sensors share this structure, differing only in message text). -/
structure Sensor where
  sensor_id : String
  topic : BristlemouthTopic
  default_unit : SensorUnit
  min_value : F64
  max_value : F64
  readings : List SensorReading
  seq : Nat
  deriving DecidableEq, Repr

/-- `validate_reading`: `isinstance(value, (int, float))`, then
`value < self.min_value`, then `value > self.max_value`. -/
def Sensor.validate_reading (s : Sensor) (value : PyVal) : Bool × VMsg :=
  match value with
  | .vstr _ => (false, .nonNumeric)
  | .vbytes _ => (false, .nonNumeric)
  | _ =>
    if pyLtF value s.min_value then (false, .belowMin)
    else if pyGtF value s.max_value then (false, .aboveMax)
    else (true, .valid)

/-- `BaseSensor.create_reading`: validate (raise `ValueError` with the
validator's message on failure), construct the reading (whose `__post_init__`
checks quality), append it to `self._readings`, return it. `now` stands for
`time.time()`; a falsy (`None` or zero) timestamp argument is replaced by it. -/
def Sensor.create_reading (s : Sensor) (value : PyVal) (unit : Option SensorUnit)
    (timestamp : Option ℚ) (quality : Nat) (depth_m : Option F64) (now : ℚ) :
    Except VErr (SensorReading × Sensor) :=
  match s.validate_reading value with
  | (false, msg) => .error (.invalidReading msg)
  | (true, _) =>
    if 100 < quality then .error .qualityRange
    else
      let reading : SensorReading :=
        ⟨value, unit.getD s.default_unit,
          match timestamp with
          | some t => if t = 0 then now else t
          | none => now,
          quality, some s.sensor_id, depth_m⟩
      .ok (reading, { s with readings := s.readings ++ [reading] })

def f64zero : F64 := ⟨false, 0, 0⟩

/-- -5.0, `TemperatureSensor`'s default minimum. -/
def f64neg5 : F64 := ⟨true, 1025, 2 ^ 50⟩

/-- 50.0, `TemperatureSensor`'s default maximum. -/
def f64fifty : F64 := ⟨false, 1028, 2 ^ 51 + 2 ^ 48⟩

/-- 360.0, the direction bound. -/
def f64threesixty : F64 := ⟨false, 1031, 2 ^ 50 + 2 ^ 49 + 2 ^ 47⟩

/-- A quiet NaN. -/
def f64nan : F64 := ⟨false, 2047, 2 ^ 51⟩

/-- `TemperatureSensor()` with its default identifier, topic, unit and
bounds. -/
def temperatureSensor : Sensor :=
  ⟨"temp_sensor_01", ⟨"spotter/sensor/temperature", 1, none⟩, .celsius,
    f64neg5, f64fifty, [], 0⟩

/-- A `CurrentMeterSensor`: the base sensor state plus `_direction_readings`. -/
structure CurrentMeter where
  base : Sensor
  direction_readings : List (PyVal × F64)
  deriving DecidableEq, Repr

/-- `CurrentMeterSensor.create_current_reading`: the chained comparison
`0 <= direction_deg <= 360` (false for NaN), then `create_reading`, then the
`(speed, direction)` log append. -/
def CurrentMeter.create_current_reading (c : CurrentMeter) (speed : PyVal)
    (direction_deg : F64) (timestamp : Option ℚ) (quality : Nat)
    (depth_m : Option F64) (now : ℚ) :
    Except VErr ((SensorReading × F64) × CurrentMeter) :=
  if ¬ (F64.le f64zero direction_deg && F64.le direction_deg f64threesixty) then
    .error .directionRange
  else
    (c.base.create_reading speed none timestamp quality depth_m now).map
      fun rs => ((rs.1, direction_deg),
        ⟨rs.2, c.direction_readings ++ [(speed, direction_deg)]⟩)

/-- The numeric values whose comparisons agree with exact rational order:
ints, bools, and finite floats. -/
def numericFin : PyVal → Prop
  | .vfloat f => f.exp < 2047
  | .vint _ => True
  | .vbool _ => True
  | .vstr _ => False
  | .vbytes _ => False

instance (v : PyVal) : Decidable (numericFin v) := by
  unfold numericFin
  cases v <;> infer_instance

/-- The exact rational value of a numeric `PyVal` (0 for non-numeric). -/
def pyNumVal : PyVal → ℚ
  | .vfloat f => f.sval
  | .vint i => (i : ℚ)
  | .vbool b => if b then 1 else 0
  | _ => 0

theorem F64.mag_eq (f : F64) : f.mag = (f.T : ℚ) * 2 ^ f.E / 2 ^ 1075 := by
  rw [F64.mag, zpow_sub₀ (show (2 : ℚ) ≠ 0 from by norm_num),
    show ((1075 : ℤ)) = ((1075 : ℕ) : ℤ) from rfl, zpow_natCast, zpow_natCast,
    mul_div_assoc]

def f64twentyfive : F64 := ⟨false, 1027, 2 ^ 51 + 2 ^ 48⟩

theorem f64zero_sval : f64zero.sval = 0 := by
  rw [show f64zero = ⟨false, 0, 0⟩ from rfl, F64.sval, F64.mag_eq]
  norm_num [F64.T]

theorem f64neg5_sval : f64neg5.sval = -5 := by
  rw [show f64neg5 = ⟨true, 1025, 2 ^ 50⟩ from rfl, F64.sval, if_pos rfl, F64.mag_eq]
  norm_num [F64.T, F64.E]

theorem f64fifty_sval : f64fifty.sval = 50 := by
  rw [show f64fifty = ⟨false, 1028, 2 ^ 51 + 2 ^ 48⟩ from rfl, F64.sval, F64.mag_eq]
  norm_num [F64.T, F64.E]

theorem f64twentyfive_sval : f64twentyfive.sval = 25 := by
  rw [show f64twentyfive = ⟨false, 1027, 2 ^ 51 + 2 ^ 48⟩ from rfl, F64.sval, F64.mag_eq]
  norm_num [F64.T, F64.E]

theorem f64threesixty_sval : f64threesixty.sval = 360 := by
  rw [show f64threesixty = ⟨false, 1031, 2 ^ 50 + 2 ^ 49 + 2 ^ 47⟩ from rfl,
    F64.sval, F64.mag_eq]
  norm_num [F64.T, F64.E]

theorem F64.lt_nan_left (f m : F64) (h : f.isNan) : F64.lt f m = false := by
  rw [F64.lt, if_pos (Or.inl h)]

theorem F64.lt_nan_right (m f : F64) (h : f.isNan) : F64.lt m f = false := by
  rw [F64.lt, if_pos (Or.inr h)]

theorem F64.le_nan_right (m f : F64) (h : f.isNan) : F64.le m f = false := by
  rw [F64.le, if_pos (Or.inr h)]

theorem F64.lt_eq (a b : F64) (ha : a.exp < 2047) (hb : b.exp < 2047) :
    F64.lt a b = decide (a.sval < b.sval) := by
  rw [F64.lt, if_neg (by rw [F64.isNan, F64.isNan]; omega),
    if_neg (by omega), if_neg (by omega)]

theorem F64.le_eq (a b : F64) (ha : a.exp < 2047) (hb : b.exp < 2047) :
    F64.le a b = decide (a.sval ≤ b.sval) := by
  rw [F64.le, if_neg (by rw [F64.isNan, F64.isNan]; omega),
    if_neg (by omega), if_neg (by omega)]

theorem pyLtF_eq (v : PyVal) (m : F64) (hm : m.exp < 2047) (hv : numericFin v) :
    pyLtF v m = decide (pyNumVal v < m.sval) := by
  cases v with
  | vint i =>
      show intLtF i m = _
      rw [intLtF, if_neg (by rw [F64.isNan]; omega), if_neg (by omega)]
      rfl
  | vfloat f => exact F64.lt_eq f m hv hm
  | vstr s => exact hv.elim
  | vbytes b => exact hv.elim
  | vbool b =>
      show intLtF (if b then 1 else 0) m = _
      rw [intLtF, if_neg (by rw [F64.isNan]; omega), if_neg (by omega)]
      cases b <;> norm_num <;> rfl

theorem pyGtF_eq (v : PyVal) (m : F64) (hm : m.exp < 2047) (hv : numericFin v) :
    pyGtF v m = decide (m.sval < pyNumVal v) := by
  cases v with
  | vint i =>
      show intGtF i m = _
      rw [intGtF, if_neg (by rw [F64.isNan]; omega), if_neg (by omega)]
      rfl
  | vfloat f =>
      show F64.lt m f = _
      exact F64.lt_eq m f hm hv
  | vstr s => exact hv.elim
  | vbytes b => exact hv.elim
  | vbool b =>
      show intGtF (if b then 1 else 0) m = _
      rw [intGtF, if_neg (by rw [F64.isNan]; omega), if_neg (by omega)]
      cases b <;> norm_num <;> rfl

/-- The `isinstance` arm of the validator never fires for a numeric value:
the match reduces to the two range comparisons. -/
theorem validate_numeric (s : Sensor) (v : PyVal) (hv : numericFin v) :
    s.validate_reading v =
      (if pyLtF v s.min_value then (false, .belowMin)
       else if pyGtF v s.max_value then (false, .aboveMax)
       else (true, .valid)) := by
  cases v with
  | vint i => rfl
  | vfloat f => rfl
  | vstr s2 => exact hv.elim
  | vbytes b => exact hv.elim
  | vbool b => rfl

theorem validate_vfloat (s : Sensor) (f : F64) :
    s.validate_reading (.vfloat f) =
      (if pyLtF (.vfloat f) s.min_value then (false, .belowMin)
       else if pyGtF (.vfloat f) s.max_value then (false, .aboveMax)
       else (true, .valid)) := rfl

theorem create_reading_invalid (s : Sensor) (v : PyVal) (u : Option SensorUnit)
    (ts : Option ℚ) (q : Nat) (d : Option F64) (now : ℚ) (msg : VMsg)
    (h : s.validate_reading v = (false, msg)) :
    s.create_reading v u ts q d now = .error (.invalidReading msg) := by
  simp only [Sensor.create_reading, h]

theorem create_reading_valid (s : Sensor) (v : PyVal) (u : Option SensorUnit)
    (ts : Option ℚ) (q : Nat) (d : Option F64) (now : ℚ)
    (h : s.validate_reading v = (true, .valid)) (hq : ¬ 100 < q) :
    ∃ r s2, s.create_reading v u ts q d now = .ok (r, s2) ∧
      r.value = v ∧ r.quality = q ∧ r.sensor_id = some s.sensor_id ∧
      r.depth_m = d ∧ s2.readings = s.readings ++ [r] ∧
      s2.min_value = s.min_value ∧ s2.max_value = s.max_value := by
  have heq : s.create_reading v u ts q d now = .ok
      (⟨v, u.getD s.default_unit,
        (match ts with | some t => if t = 0 then now else t | none => now),
        q, some s.sensor_id, d⟩,
       { s with readings := s.readings ++
         [⟨v, u.getD s.default_unit,
           (match ts with | some t => if t = 0 then now else t | none => now),
           q, some s.sensor_id, d⟩] }) := by
    simp only [Sensor.create_reading, h]
    rw [if_neg hq]
  exact ⟨_, _, heq, rfl, rfl, rfl, rfl, rfl, rfl, rfl⟩

set_option maxHeartbeats 1000000 in
/-- C8: `create_reading` raises `ValueError` with the validator's message for a
non-numeric value and for a finite numeric value strictly outside
`[min_value, max_value]` (no reading is constructed or appended in those
cases, as the validator runs before the constructor); a finite numeric value
within the bounds (with in-range quality) yields a reading that is returned
and appended to the log. However the advertised "fails iff outside the range"
is violated by NaN: a NaN value is numeric, is not within `[min, max]` under
IEEE comparisons, yet is accepted and logged, because `value < min` and
`value > max` are both false for NaN. `create_current_reading` additionally
rejects a direction outside `[0, 360]` (including NaN, via the chained
comparison) and otherwise delegates to `create_reading`. -/
theorem C8_create_reading (s : Sensor) (v : PyVal) (u : Option SensorUnit)
    (ts : Option ℚ) (q : Nat) (d : Option F64) (now : ℚ)
    (hmin : s.min_value.exp < 2047) (hmax : s.max_value.exp < 2047)
    (hq : q ≤ 100) :
    (∀ st, v = .vstr st →
      s.create_reading v u ts q d now = .error (.invalidReading .nonNumeric)) ∧
    (∀ bv, v = .vbytes bv →
      s.create_reading v u ts q d now = .error (.invalidReading .nonNumeric)) ∧
    (numericFin v → pyNumVal v < s.min_value.sval →
      s.create_reading v u ts q d now = .error (.invalidReading .belowMin)) ∧
    (numericFin v → ¬ pyNumVal v < s.min_value.sval →
        s.max_value.sval < pyNumVal v →
      s.create_reading v u ts q d now = .error (.invalidReading .aboveMax)) ∧
    (numericFin v → s.min_value.sval ≤ pyNumVal v →
        pyNumVal v ≤ s.max_value.sval →
      ∃ r s2, s.create_reading v u ts q d now = .ok (r, s2) ∧
        r.value = v ∧ r.quality = q ∧ r.sensor_id = some s.sensor_id ∧
        r.depth_m = d ∧ s2.readings = s.readings ++ [r] ∧
        s2.min_value = s.min_value ∧ s2.max_value = s.max_value) ∧
    (∀ f, v = .vfloat f → f.isNan →
      ∃ r s2, s.create_reading v u ts q d now = .ok (r, s2) ∧
        r.value = v ∧ s2.readings = s.readings ++ [r]) ∧
    (∀ (c : CurrentMeter) (speed : PyVal) (dir : F64),
      dir.isNan ∨ (dir.exp < 2047 ∧ (dir.sval < 0 ∨ 360 < dir.sval)) →
      c.create_current_reading speed dir ts q d now = .error .directionRange) ∧
    (∀ (c : CurrentMeter) (speed : PyVal) (dir : F64),
      dir.exp < 2047 → 0 ≤ dir.sval → dir.sval ≤ 360 →
      c.create_current_reading speed dir ts q d now
        = (c.base.create_reading speed none ts q d now).map
            fun rs => ((rs.1, dir),
              ⟨rs.2, c.direction_readings ++ [(speed, dir)]⟩)) := by
  have hzexp : f64zero.exp < 2047 := by decide
  have htexp : f64threesixty.exp < 2047 := by decide
  refine ⟨?_, ?_, ?_, ?_, ?_, ?_, ?_, ?_⟩
  · intro st hst
    subst hst
    exact create_reading_invalid s _ u ts q d now _ rfl
  · intro bv hbv
    subst hbv
    exact create_reading_invalid s _ u ts q d now _ rfl
  · intro hv h
    refine create_reading_invalid s v u ts q d now _ ?_
    rw [validate_numeric s v hv]
    have hlt : pyLtF v s.min_value = true := by
      rw [pyLtF_eq v _ hmin hv]
      exact decide_eq_true h
    simp [hlt]
  · intro hv h1 h2
    refine create_reading_invalid s v u ts q d now _ ?_
    rw [validate_numeric s v hv]
    have hlt : pyLtF v s.min_value = false := by
      rw [pyLtF_eq v _ hmin hv]
      exact decide_eq_false h1
    have hgt : pyGtF v s.max_value = true := by
      rw [pyGtF_eq v _ hmax hv]
      exact decide_eq_true h2
    simp [hlt, hgt]
  · intro hv h1 h2
    refine create_reading_valid s v u ts q d now ?_ (by omega)
    rw [validate_numeric s v hv]
    have hlt : pyLtF v s.min_value = false := by
      rw [pyLtF_eq v _ hmin hv]
      exact decide_eq_false (not_lt.mpr h1)
    have hgt : pyGtF v s.max_value = false := by
      rw [pyGtF_eq v _ hmax hv]
      exact decide_eq_false (not_lt.mpr h2)
    simp [hlt, hgt]
  · intro f hf hnan
    subst hf
    have hval : s.validate_reading (.vfloat f) = (true, .valid) := by
      rw [validate_vfloat]
      have h1 : pyLtF (.vfloat f) s.min_value = false := F64.lt_nan_left f _ hnan
      have h2 : pyGtF (.vfloat f) s.max_value = false := F64.lt_nan_right _ f hnan
      simp [h1, h2]
    obtain ⟨r, s2, heq, hrv, _, _, _, hlog, _, _⟩ :=
      create_reading_valid s (.vfloat f) u ts q d now hval (by omega)
    exact ⟨r, s2, heq, hrv, hlog⟩
  · intro c speed dir hbad
    rw [CurrentMeter.create_current_reading]
    have hcond : (F64.le f64zero dir && F64.le dir f64threesixty) = false := by
      rcases hbad with hnan | ⟨hfin, hout⟩
      · rw [F64.le_nan_right _ _ hnan]
        simp
      · rcases hout with hlo | hhi
        · have : F64.le f64zero dir = false := by
            rw [F64.le_eq _ _ hzexp hfin, f64zero_sval]
            exact decide_eq_false (by linarith)
          rw [this]
          simp
        · have : F64.le dir f64threesixty = false := by
            rw [F64.le_eq _ _ hfin htexp, f64threesixty_sval]
            exact decide_eq_false (by linarith)
          rw [this]
          simp
    rw [if_pos (by rw [hcond]; simp)]
  · intro c speed dir hfin h0 h360
    rw [CurrentMeter.create_current_reading]
    have h1 : F64.le f64zero dir = true := by
      rw [F64.le_eq _ _ hzexp hfin, f64zero_sval]
      exact decide_eq_true h0
    have h2 : F64.le dir f64threesixty = true := by
      rw [F64.le_eq _ _ hfin htexp, f64threesixty_sval]
      exact decide_eq_true h360
    rw [if_neg (by rw [h1, h2]; simp)]

theorem C8_create_reading_witness :
    ∃ r s2, temperatureSensor.create_reading (.vfloat f64twentyfive)
        none none 100 none 0 = .ok (r, s2) ∧
      r.value = .vfloat f64twentyfive ∧ r.quality = 100 ∧
      r.sensor_id = some temperatureSensor.sensor_id ∧
      r.depth_m = none ∧ s2.readings = temperatureSensor.readings ++ [r] ∧
      s2.min_value = temperatureSensor.min_value ∧
      s2.max_value = temperatureSensor.max_value :=
  (C8_create_reading temperatureSensor (.vfloat f64twentyfive) none none 100 none 0
      (by decide) (by decide) (by decide)).2.2.2.2.1
    (by decide)
    (by rw [show temperatureSensor.min_value = f64neg5 from rfl, f64neg5_sval,
          show pyNumVal (.vfloat f64twentyfive) = f64twentyfive.sval from rfl,
          f64twentyfive_sval]
        norm_num)
    (by rw [show temperatureSensor.max_value = f64fifty from rfl, f64fifty_sval,
          show pyNumVal (.vfloat f64twentyfive) = f64twentyfive.sval from rfl,
          f64twentyfive_sval]
        norm_num)

/-- A NaN value is numeric, satisfies neither `min <= value` nor
`value <= max`, yet `create_reading` accepts and logs it. -/
theorem C8_counterexample :
    f64nan.isNan ∧
    F64.le f64neg5 f64nan = false ∧ F64.le f64nan f64fifty = false ∧
    ∃ r s2, temperatureSensor.create_reading (.vfloat f64nan) none none 100 none 0
        = .ok (r, s2) ∧ r.value = .vfloat f64nan ∧
      s2.readings = temperatureSensor.readings ++ [r] := by
  refine ⟨by decide, rfl, rfl, _, _, rfl, rfl, rfl⟩

/-! ## Spotter client (`SpotterBuoyClient`) -/

inductive TransmissionMode where
  | satellite | cellular | hybrid | localOnly
  deriving DecidableEq, Repr

inductive ConnectionState where
  | disconnected | connecting | connected | errorState
  deriving DecidableEq, Repr

structure TransmissionResult where
  success : Bool
  message_count : Nat
  bytes_transmitted : Nat
  timestamp : ℚ
  error_message : Option String
  transmission_mode : Option TransmissionMode
  deriving DecidableEq, Repr

/-- Python `l[s:]` for an arbitrary (possibly negative) start index. -/
def pySliceFrom {α : Type} (l : List α) (s : Int) : List α :=
  if s < 0 then l.drop ((l.length + s).toNat) else l.drop s.toNat

/-- `collections.deque(maxlen=L).append`: at capacity the oldest entry is
silently evicted. -/
def deqAppend {α : Type} (maxlen : Nat) (q : List α) (x : α) : List α :=
  (q ++ [x]).drop (q.length + 1 - maxlen)

/-- The mutable state of a `SpotterBuoyClient`. Listener callbacks are opaque
identifiers; operations return the (listener, arguments) invocations they
perform, in invocation order. -/
structure Client where
  device_id : String
  max_queue_size : Nat
  default_mode : TransmissionMode
  queue : List BristlemouthMessage
  history : List TransmissionResult
  state : ConnectionState
  seq : Nat
  on_transmit_listeners : List Nat
  on_state_change_listeners : List Nat
  deriving DecidableEq, Repr

/-- The `state` property setter: store the new state, then notify the
state-change listeners only if the value actually changed. -/
def Client.setState (c : Client) (new_state : ConnectionState) :
    Client × List (Nat × ConnectionState × ConnectionState) :=
  let old := c.state
  let c2 := { c with state := new_state }
  if old ≠ new_state then
    (c2, c.on_state_change_listeners.map (fun l => (l, old, new_state)))
  else (c2, [])

/-- `queue_message`: append to the bounded deque. -/
def Client.queue_message (c : Client) (m : BristlemouthMessage) : Client :=
  { c with queue := deqAppend c.max_queue_size c.queue m }

/-- `queue_raw_data`: bump the client sequence number FIRST, then run the
`BristlemouthMessage` constructor (whose `__post_init__` rejects payloads over
1400 bytes — on that `ValueError` the sequence number stays bumped and nothing
is enqueued), then append the message. `now` stands for the timestamp default
factory. -/
def Client.queue_raw_data (c : Client) (topic : BristlemouthTopic)
    (data : List Nat) (mt : Nat) (now : ℚ) :
    Except PErr BristlemouthMessage × Client :=
  let c1 := { c with seq := c.seq + 1 }
  match BristlemouthMessage.create topic data mt 1 c1.seq now none with
  | .error e => (.error e, c1)
  | .ok m => (.ok m, { c1 with queue := deqAppend c1.max_queue_size c1.queue m })

/-- `BaseSensor.wrap_reading`: encode the reading (struct errors propagate,
modeled as `none`), bump the sensor sequence number, build a SENSOR_DATA
message on the sensor's topic. -/
def Sensor.wrap_reading (s : Sensor) (r : SensorReading) :
    Option (BristlemouthMessage × Sensor) :=
  (r.toBytes).map fun payload =>
    (⟨s.topic, payload, 1, 1, s.seq + 1, r.timestamp, none⟩,
     { s with seq := s.seq + 1 })

/-- `queue_reading`: wrap the reading and append the resulting message. -/
def Client.queue_reading (c : Client) (sen : Sensor) (r : SensorReading) :
    Option (BristlemouthMessage × Sensor × Client) :=
  (sen.wrap_reading r).map fun ms =>
    (ms.1, ms.2, { c with queue := deqAppend c.max_queue_size c.queue ms.1 })

/-- `transmit`: empty queue returns a zero result at once (no history entry,
no callbacks); otherwise `max_messages or len(queue)` (so an explicit 0 means
"all"), clamped by the queue length, messages popped FIFO, the result appended
to history and handed to every transmit listener. -/
def Client.transmit (c : Client) (mode : Option TransmissionMode)
    (max_messages : Option Nat) (now : ℚ) :
    TransmissionResult × Client × List (Nat × TransmissionResult) :=
  let m := mode.getD c.default_mode
  if c.queue = [] then
    (⟨true, 0, 0, now, none, some m⟩, c, [])
  else
    let requested := match max_messages with
      | none => c.queue.length
      | some k => if k = 0 then c.queue.length else k
    let k := min requested c.queue.length
    let sent := c.queue.take k
    let total := (sent.map (fun msg => msg.toBytes.length)).sum
    let result : TransmissionResult := ⟨true, sent.length, total, now, none, some m⟩
    (result,
     { c with queue := c.queue.drop k, history := c.history ++ [result] },
     c.on_transmit_listeners.map (fun l => (l, result)))

/-- `get_transmission_history`: `if limit:` is a truthiness test, so a zero
limit falls through to the full copy; otherwise the Python slice
`history[-limit:]`. -/
def Client.get_transmission_history (c : Client) (limit : Option Int) :
    List TransmissionResult :=
  match limit with
  | some l => if l ≠ 0 then pySliceFrom c.history (-l) else c.history
  | none => c.history

/-- A whole sequence of `queue_message` enqueues. -/
def enqueueAll (c : Client) (ms : List BristlemouthMessage) : Client :=
  ms.foldl Client.queue_message c

theorem enqueueAll_max (c : Client) (ms : List BristlemouthMessage) :
    (enqueueAll c ms).max_queue_size = c.max_queue_size := by
  induction ms generalizing c with
  | nil => rfl
  | cons m rest ih => exact (ih (c.queue_message m)).trans rfl

/-- Folding bounded-deque appends keeps exactly the newest entries: the result
is the tail of the concatenation that fits the capacity. -/
theorem enqueueAll_queue (c : Client) (ms : List BristlemouthMessage)
    (h : c.queue.length ≤ c.max_queue_size) :
    (enqueueAll c ms).queue
      = (c.queue ++ ms).drop (c.queue.length + ms.length - c.max_queue_size) := by
  induction ms generalizing c with
  | nil =>
      show c.queue = _
      rw [List.append_nil, show c.queue.length + [].length - c.max_queue_size = 0
        from by simp; omega, List.drop_zero]
  | cons m rest ih =>
      have hq2 : (c.queue_message m).queue.length
          ≤ (c.queue_message m).max_queue_size := by
        simp [Client.queue_message, deqAppend]
        omega
      rw [show enqueueAll c (m :: rest) = enqueueAll (c.queue_message m) rest from rfl,
        ih _ hq2]
      have hmax : (c.queue_message m).max_queue_size = c.max_queue_size := rfl
      have hqueue : (c.queue_message m).queue
          = (c.queue ++ [m]).drop (c.queue.length + 1 - c.max_queue_size) := rfl
      rw [hmax, hqueue]
      have hsplit : ((c.queue ++ [m]) ++ rest).drop
              (c.queue.length + 1 - c.max_queue_size)
          = (c.queue ++ [m]).drop (c.queue.length + 1 - c.max_queue_size)
            ++ rest := by
        rw [List.drop_append_eq_append_drop,
          show c.queue.length + 1 - c.max_queue_size - (c.queue ++ [m]).length = 0
            from by simp, List.drop_zero]
      rw [← hsplit, List.drop_drop,
        show (c.queue ++ [m]) ++ rest = c.queue ++ m :: rest from by simp]
      congr 1
      simp
      omega

set_option maxHeartbeats 1000000 in
/-- C2: the bounded deque keeps the queue length within `max_queue_size` under
any sequence of enqueues; each of the three enqueue operations appends through
the same bounded deque, which at capacity silently evicts the oldest entry;
and 10 enqueues into a fresh capacity-5 queue leave exactly the last 5, in
oldest-first order. -/
theorem C2_queue_capacity (c : Client) (hcap : c.queue.length ≤ c.max_queue_size) :
    (∀ ms, (enqueueAll c ms).queue
        = (c.queue ++ ms).drop (c.queue.length + ms.length - c.max_queue_size)) ∧
    (∀ ms, (enqueueAll c ms).queue.length ≤ c.max_queue_size) ∧
    (∀ m, 0 < c.max_queue_size → c.queue.length = c.max_queue_size →
      (c.queue_message m).queue = c.queue.tail ++ [m]) ∧
    (∀ sen r m2 sen2 c2, c.queue_reading sen r = some (m2, sen2, c2) →
      c2.queue = deqAppend c.max_queue_size c.queue m2) ∧
    (∀ topic data mt now, data.length ≤ 1400 →
      ∃ m2 c2, c.queue_raw_data topic data mt now = (.ok m2, c2) ∧
        c2.queue = deqAppend c.max_queue_size c.queue m2) ∧
    (∀ topic data mt now, 1400 < data.length →
      c.queue_raw_data topic data mt now
        = (.error .payloadTooLarge, { c with seq := c.seq + 1 })) ∧
    (c.max_queue_size = 5 → c.queue = [] → ∀ ms, ms.length = 10 →
      (enqueueAll c ms).queue = ms.drop 5) := by
  refine ⟨fun ms => enqueueAll_queue c ms hcap, ?_, ?_, ?_, ?_, ?_, ?_⟩
  · intro ms
    rw [enqueueAll_queue c ms hcap]
    simp
    omega
  · intro m hpos hfull
    show (c.queue ++ [m]).drop (c.queue.length + 1 - c.max_queue_size) = _
    rw [hfull, show c.max_queue_size + 1 - c.max_queue_size = 1 from by omega]
    cases hq : c.queue with
    | nil =>
        rw [hq] at hfull
        simp at hfull
        omega
    | cons a t => simp
  · intro sen r m2 sen2 c2 heq
    cases hw : sen.wrap_reading r with
    | none =>
        rw [Client.queue_reading, hw] at heq
        simp at heq
    | some ms =>
        rw [Client.queue_reading, hw, Option.map_some'] at heq
        simp only [Option.some.injEq, Prod.mk.injEq] at heq
        obtain ⟨h1, h2, h3⟩ := heq
        rw [← h3, ← h1]
  · intro topic data mt now hlen
    have heq : c.queue_raw_data topic data mt now
        = (.ok (⟨topic, data, mt, 1, c.seq + 1, now, none⟩ : BristlemouthMessage),
           { c with seq := c.seq + 1,
                    queue := deqAppend c.max_queue_size c.queue
                      ⟨topic, data, mt, 1, c.seq + 1, now, none⟩ }) := by
      simp only [Client.queue_raw_data, BristlemouthMessage.create]
      rw [if_neg (by omega)]
    exact ⟨_, _, heq, rfl⟩
  · intro topic data mt now hlen
    simp only [Client.queue_raw_data, BristlemouthMessage.create]
    rw [if_pos hlen]
  · intro h5 hnil ms hlen
    rw [enqueueAll_queue c ms hcap, hnil, h5, hlen]
    simp

def c2Msg : BristlemouthMessage := ⟨⟨"t", 1, none⟩, [], 1, 1, 1, 0, none⟩

def c2Client : Client :=
  ⟨"SPOT-1234", 5, .hybrid, [], [], .disconnected, 0, [], []⟩

theorem C2_queue_capacity_witness :
    (enqueueAll c2Client (List.replicate 10 c2Msg)).queue
      = (List.replicate 10 c2Msg).drop 5 :=
  (C2_queue_capacity c2Client (by decide)).2.2.2.2.2.2 rfl rfl
    (List.replicate 10 c2Msg) rfl

set_option maxHeartbeats 1000000 in
/-- C1: for a client whose queued messages are all wire-valid — the domain on
which the byte-level `to_bytes` embedding agrees with `struct.pack` (outside
it the program's transmit raises mid-drain instead of completing) — transmit
with an explicit nonzero `max_messages = k ≤ n` drains the first `k` queue
entries in FIFO order, reports success with count `k` and the sum of the
drained messages' encoded lengths, appends the result to history and invokes
every transmit listener with it. But on an EMPTY queue it returns the zero
result immediately: nothing is appended to history and no listener runs. And
`max_messages = 0` is falsy, so it means "all", not "none": the whole queue is
drained (as with `max_messages = None`). -/
theorem C1_transmit (c : Client) (mode : Option TransmissionMode) (now : ℚ)
    (_hwv : ∀ m ∈ c.queue, m.wireValid) :
    (∀ k, k ≠ 0 → k ≤ c.queue.length →
      ∃ res, c.transmit mode (some k) now
          = (res,
             { c with queue := c.queue.drop k, history := c.history ++ [res] },
             c.on_transmit_listeners.map (fun l => (l, res))) ∧
        res.success = true ∧ res.message_count = k ∧
        res.bytes_transmitted
          = ((c.queue.take k).map (fun m => m.toBytes.length)).sum ∧
        res.transmission_mode = some (mode.getD c.default_mode)) ∧
    (c.queue = [] → ∀ mm,
      c.transmit mode mm now
        = (⟨true, 0, 0, now, none, some (mode.getD c.default_mode)⟩, c, [])) ∧
    (c.queue ≠ [] →
      ∃ res, c.transmit mode (some 0) now
          = (res,
             { c with queue := [], history := c.history ++ [res] },
             c.on_transmit_listeners.map (fun l => (l, res))) ∧
        res.message_count = c.queue.length) ∧
    (c.queue ≠ [] →
      ∃ res, c.transmit mode none now
          = (res,
             { c with queue := [], history := c.history ++ [res] },
             c.on_transmit_listeners.map (fun l => (l, res))) ∧
        res.message_count = c.queue.length) := by
  refine ⟨?_, ?_, ?_, ?_⟩
  · intro k hk0 hkn
    have hne : ¬ c.queue = [] := by
      intro h
      rw [h] at hkn
      simp at hkn
      omega
    refine ⟨⟨true, k, ((c.queue.take k).map (fun m => m.toBytes.length)).sum,
      now, none, some (mode.getD c.default_mode)⟩, ?_, rfl, rfl, rfl, rfl⟩
    simp only [Client.transmit]
    rw [if_neg hne, if_neg hk0, min_eq_left hkn, List.length_take,
      min_eq_left hkn]
  · intro hq mm
    simp only [Client.transmit]
    rw [if_pos hq]
  · intro hne
    refine ⟨⟨true, c.queue.length, (c.queue.map (fun m => m.toBytes.length)).sum,
      now, none, some (mode.getD c.default_mode)⟩, ?_, rfl⟩
    simp only [Client.transmit]
    rw [if_neg hne, if_true, min_self, List.take_length, List.drop_length]
  · intro hne
    refine ⟨⟨true, c.queue.length, (c.queue.map (fun m => m.toBytes.length)).sum,
      now, none, some (mode.getD c.default_mode)⟩, ?_, rfl⟩
    simp only [Client.transmit]
    rw [if_neg hne, min_self, List.take_length, List.drop_length]

def c1Client : Client :=
  ⟨"SPOT-1234", 1000, .hybrid, [c2Msg], [], .disconnected, 0, [7], []⟩

theorem c2Msg_pyInt : pyInt (c2Msg.timestamp * 1000) = 0 := by
  have h : c2Msg.timestamp * 1000 = ((0 : ℕ) : ℚ) := by
    show (0 : ℚ) * 1000 = _
    norm_num
  rw [h, pyInt_natCast]
  rfl

theorem c2Msg_wireValid : c2Msg.wireValid := by
  refine ⟨by decide, by decide, by decide, by decide, by decide, by decide,
    by decide, ?_, ?_⟩
  · rw [c2Msg_pyInt]
  · rw [c2Msg_pyInt]
    decide

theorem C1_transmit_witness :
    ∃ res, c1Client.transmit none (some 1) 0
        = (res,
           { c1Client with
             queue := c1Client.queue.drop 1
             history := c1Client.history ++ [res] },
           c1Client.on_transmit_listeners.map (fun l => (l, res))) ∧
      res.success = true ∧ res.message_count = 1 ∧
      res.bytes_transmitted
        = ((c1Client.queue.take 1).map (fun m => m.toBytes.length)).sum ∧
      res.transmission_mode = some ((none : Option TransmissionMode).getD
        c1Client.default_mode) :=
  (C1_transmit c1Client none 0
      (by
        intro m hm
        rw [show c1Client.queue = [c2Msg] from rfl, List.mem_singleton] at hm
        subst hm
        exact c2Msg_wireValid)).1
    1 (by decide) (by decide)

def c1EmptyClient : Client :=
  ⟨"SPOT-1234", 1000, .hybrid, [], [], .disconnected, 0, [7], []⟩

/-- With one registered transmit listener and an empty queue, transmit returns
the zero result but leaves the client untouched (no history entry) and
invokes no listener, refuting "in every case the result is appended to the
history and all listeners are invoked". -/
theorem C1_counterexample :
    c1EmptyClient.on_transmit_listeners ≠ [] ∧
    c1EmptyClient.transmit none none 0
      = (⟨true, 0, 0, 0, none, some TransmissionMode.hybrid⟩,
         c1EmptyClient, []) :=
  ⟨by decide, rfl⟩

/-- C9: assigning the current state again stores it and notifies nobody (the
client is unchanged); assigning a different state notifies every state-change
listener, in registration order, with `(old, new)`; and no other modeled
operation (enqueues, transmit) ever changes the state — transitions come only
from external assignment. -/
theorem C9_state_assignment (c : Client) (s2 : ConnectionState) :
    (s2 = c.state → c.setState s2 = (c, [])) ∧
    (s2 ≠ c.state → c.setState s2
      = ({ c with state := s2 },
         c.on_state_change_listeners.map (fun l => (l, c.state, s2)))) ∧
    (∀ m, (c.queue_message m).state = c.state) ∧
    (∀ topic data mt now,
      ((c.queue_raw_data topic data mt now).2).state = c.state) ∧
    (∀ mode mm now, ((c.transmit mode mm now).2.1).state = c.state) := by
  refine ⟨?_, ?_, fun m => rfl, ?_, ?_⟩
  · intro h
    subst h
    simp only [Client.setState]
    rw [if_neg (show ¬ (c.state ≠ c.state) from fun hh => hh rfl)]
  · intro h
    simp only [Client.setState]
    rw [if_pos (show c.state ≠ s2 from fun hh => h hh.symm)]
  · intro topic data mt now
    by_cases h : 1400 < data.length <;>
      simp [Client.queue_raw_data, BristlemouthMessage.create, h]
  · intro mode mm now
    simp only [Client.transmit]
    by_cases hq : c.queue = []
    · rw [if_pos hq]
    · rw [if_neg hq]

def c9Client : Client :=
  ⟨"SPOT-1234", 1000, .hybrid, [], [], .disconnected, 0, [], [3, 4]⟩

theorem C9_state_assignment_witness :
    c9Client.setState .connected
      = ({ c9Client with state := .connected },
         c9Client.on_state_change_listeners.map
           (fun l => (l, c9Client.state, .connected))) :=
  (C9_state_assignment c9Client .connected).2.1 (by decide)

/-- C10: a zero limit is falsy and falls through to the full-history copy,
exactly like an absent limit; a positive limit returns the last
`min(limit, n)` results (never an empty slice while the history is
non-empty); but a NEGATIVE limit slices from the FRONT (`history[-limit:]`
with `-limit > 0`) and can produce an empty list, so an empty slice is
reachable through the limit parameter after all. -/
theorem C10_history_limit (c : Client) :
    c.get_transmission_history (some 0) = c.history ∧
    c.get_transmission_history none = c.history ∧
    (∀ l : Int, 0 < l → c.get_transmission_history (some l)
        = c.history.drop (c.history.length - l.toNat)) ∧
    (∀ l : Int, 0 < l → c.history ≠ [] →
      c.get_transmission_history (some l) ≠ []) ∧
    (∀ l : Int, l < 0 → c.get_transmission_history (some l)
        = c.history.drop (-l).toNat) := by
  have hpos : ∀ l : Int, 0 < l → c.get_transmission_history (some l)
      = c.history.drop (c.history.length - l.toNat) := by
    intro l hl
    show (if l ≠ 0 then pySliceFrom c.history (-l) else c.history) = _
    rw [if_pos (by omega), pySliceFrom, if_pos (by omega)]
    congr 1
    omega
  refine ⟨?_, rfl, hpos, ?_, ?_⟩
  · show (if (0 : ℤ) ≠ 0 then pySliceFrom c.history 0 else c.history) = _
    rw [if_neg (fun h => h rfl)]
  · intro l hl hne
    rw [hpos l hl]
    intro hcontra
    have hlen := congrArg List.length hcontra
    simp at hlen
    have hpos2 : c.history.length ≠ 0 := by
      intro h0
      exact hne (List.eq_nil_of_length_eq_zero h0)
    omega
  · intro l hl
    show (if l ≠ 0 then pySliceFrom c.history (-l) else c.history) = _
    rw [if_pos (by omega), pySliceFrom, if_neg (by omega)]

def c10Result : TransmissionResult := ⟨true, 0, 0, 0, none, none⟩

def c10Client : Client :=
  ⟨"SPOT-1234", 1000, .hybrid, [], [c10Result], .disconnected, 0, [], []⟩

theorem C10_history_limit_witness :
    c10Client.get_transmission_history (some 0) = c10Client.history :=
  (C10_history_limit c10Client).1

/-- A negative limit reaches the `history[-limit:]` slice with a positive
start index and returns an empty list on a one-entry history. -/
theorem C10_counterexample :
    c10Client.history ≠ [] ∧
    c10Client.get_transmission_history (some (-1)) = [] :=
  ⟨by decide, rfl⟩

end MLS
